import Mathlib

/-!
# TopsailAI — formal model of the context/history engine, LLM gateway and agent loop

A shallow embedding, in Lean 4, of the core of the TopsailAI repository:

* `topsailai/ai_base/prompt_base.py` — `ThresholdContextHistory`, `PromptBase`;
* `topsailai/context/chat_history_manager/__base.py` — `ChatHistoryMessageData`,
  `ContextManager` (`_link_msg_id`, `link_messages`, `add_session_message`);
* `topsailai/ai_base/llm_base.py` — `LLMModel` (response-content checking, the
  streaming tool-call reconstruction, and the retry loop of `chat`);
* `topsailai/ai_base/agent_base.py` — `AgentRun._run` and the step dispatch.

Python dicts are modelled by structures, in-place mutation by explicit state
passing, exceptions by `Except` or by explicit "raised" flags, and ambient
oracles (`count_tokens`, the wall clock, the LLM endpoint, the step executor)
by function parameters.  Helper modules that are not part of the analysed
source tree (`json_tool.py`, `format_tool.py`, `hash_tool.py`, `constants.py`,
the SQL storage backend) are modelled from the specification and from the
repository's own unit tests; each such definition is marked in its doc comment.
-/

namespace TopsailAI

/-! ## JSON values

The Python code passes message payloads around as JSON-encoded strings and
re-parses them (`json_tool.json_load` / `json_tool.json_dump`).  A parsed JSON
value is modelled by `Json`.  Numbers are restricted to integers in this model
(no claim depends on float payloads). -/

/-- A parsed JSON value, as produced by `json_tool.json_load`. -/
inductive Json where
  | null : Json
  | bool (b : Bool) : Json
  | num (n : Int) : Json
  | str (s : String) : Json
  | arr (xs : List Json) : Json
  | obj (kvs : List (String × Json)) : Json

/-- JSON string escaping for the renderer. -/
def jsonEscape (s : String) : String :=
  s.data.foldl (fun acc c =>
    if c = '\\' then acc ++ "\\\\"
    else if c = '"' then acc ++ "\\\""
    else if c = '\n' then acc ++ "\\n"
    else if c = '\t' then acc ++ "\\t"
    else if c = '\r' then acc ++ "\\r"
    else acc.push c) ""

mutual

/-- Modelled from the spec: `json_tool.json_dump` (the module `json_tool.py` is
not in the analysed source tree).  Deterministic JSON rendering, insertion
order preserved; indentation whitespace is simplified to a single-line form,
which no analysed property depends on. -/
def jsonDump : Json → String
  | .null => "null"
  | .bool true => "true"
  | .bool false => "false"
  | .num n => toString n
  | .str s => "\"" ++ jsonEscape s ++ "\""
  | .arr xs => "[" ++ jsonDumpList xs ++ "]"
  | .obj kvs => "\x7b" ++ jsonDumpObj kvs ++ "\x7d"

/-- Renders the elements of a JSON array, comma separated. -/
def jsonDumpList : List Json → String
  | [] => ""
  | [x] => jsonDump x
  | x :: xs => jsonDump x ++ ", " ++ jsonDumpList xs

/-- Renders the members of a JSON object, comma separated. -/
def jsonDumpObj : List (String × Json) → String
  | [] => ""
  | [(k, v)] => "\"" ++ jsonEscape k ++ "\": " ++ jsonDump v
  | (k, v) :: kvs => "\"" ++ jsonEscape k ++ "\": " ++ jsonDump v ++ ", " ++ jsonDumpObj kvs

end

/-- Python `repr` of a string (single-quoted form), used by `str(...)` on
parsed-JSON values.  Modelled with the single-quote form throughout. -/
def pyReprStr (s : String) : String :=
  "'" ++ (s.data.foldl (fun acc c =>
    if c = '\\' then acc ++ "\\\\"
    else if c = '\'' then acc ++ "\\'"
    else acc.push c) "") ++ "'"

mutual

/-- Python `str(...)` applied to a parsed-JSON value (`link_messages` measures
step sizes with `len(str(content_dict))`).  Dicts render as
`{'k': v, ...}`, strings with `repr`, and `True`/`False`/`None` capitalized,
as Python does. -/
def pyStr : Json → String
  | .null => "None"
  | .bool true => "True"
  | .bool false => "False"
  | .num n => toString n
  | .str s => pyReprStr s
  | .arr xs => "[" ++ pyStrList xs ++ "]"
  | .obj kvs => "\x7b" ++ pyStrObj kvs ++ "\x7d"

/-- Renders the elements of a Python list. -/
def pyStrList : List Json → String
  | [] => ""
  | [x] => pyStr x
  | x :: xs => pyStr x ++ ", " ++ pyStrList xs

/-- Renders the members of a Python dict. -/
def pyStrObj : List (String × Json) → String
  | [] => ""
  | [(k, v)] => pyReprStr k ++ ": " ++ pyStr v
  | (k, v) :: kvs => pyReprStr k ++ ": " ++ pyStr v ++ ", " ++ pyStrObj kvs

end

/-- Python truthiness of a parsed-JSON value (`if not content_obj: continue`). -/
def jsonTruthy : Json → Bool
  | .null => false
  | .bool b => b
  | .num n => n ≠ 0
  | .str s => s ≠ ""
  | .arr xs => !xs.isEmpty
  | .obj kvs => !kvs.isEmpty

/-! ### A small JSON parser

Modelled from the spec: `json_tool.json_load` (the module `json_tool.py` is not
in the analysed source tree) parses a JSON document or fails.  Fuel-based
recursive descent; numbers are integers. -/

/-- Drops leading JSON whitespace. -/
def skipWs : List Char → List Char
  | c :: cs => if c = ' ' ∨ c = '\n' ∨ c = '\t' ∨ c = '\r' then skipWs cs else c :: cs
  | [] => []

/-- Parses the body of a JSON string literal (the opening quote already
consumed), returning the decoded string and the rest of the input. -/
def parseStringBody : Nat → List Char → String → Option (String × List Char)
  | 0, _, _ => none
  | _ + 1, [], _ => none
  | fuel + 1, c :: cs, acc =>
    if c = '"' then some (acc, cs)
    else if c = '\\' then
      match cs with
      | [] => none
      | e :: cs' =>
        if e = 'n' then parseStringBody fuel cs' (acc.push '\n')
        else if e = 't' then parseStringBody fuel cs' (acc.push '\t')
        else if e = 'r' then parseStringBody fuel cs' (acc.push '\r')
        else if e = 'b' then parseStringBody fuel cs' (acc.push (Char.ofNat 8))
        else if e = 'f' then parseStringBody fuel cs' (acc.push (Char.ofNat 12))
        else parseStringBody fuel cs' (acc.push e)
    else parseStringBody fuel cs (acc.push c)

/-- Parses a run of decimal digits. -/
def parseDigits : List Char → Option (Nat × List Char)
  | cs =>
    let ds := cs.takeWhile Char.isDigit
    if ds = [] then none
    else some (ds.foldl (fun n c => 10 * n + (c.toNat - 48)) 0, cs.dropWhile Char.isDigit)

/-- Insertion into a parsed JSON object with Python-dict semantics: an
existing key keeps its position and takes the new value, a fresh key is
appended. -/
def objInsert (kvs : List (String × Json)) (k : String) (v : Json) :
    List (String × Json) :=
  if kvs.any (fun p => p.1 = k) then
    kvs.map (fun p => if p.1 = k then (k, v) else p)
  else kvs ++ [(k, v)]

mutual

/-- Parses one JSON value. -/
def parseVal : Nat → List Char → Option (Json × List Char)
  | 0, _ => none
  | fuel + 1, input =>
    match skipWs input with
    | [] => none
    | c :: cs =>
      if c = 'n' then
        match cs with
        | 'u' :: 'l' :: 'l' :: rest => some (Json.null, rest)
        | _ => none
      else if c = 't' then
        match cs with
        | 'r' :: 'u' :: 'e' :: rest => some (Json.bool true, rest)
        | _ => none
      else if c = 'f' then
        match cs with
        | 'a' :: 'l' :: 's' :: 'e' :: rest => some (Json.bool false, rest)
        | _ => none
      else if c = '"' then
        match parseStringBody (cs.length + 1) cs "" with
        | some (s, rest) => some (Json.str s, rest)
        | none => none
      else if c = '-' then
        match parseDigits cs with
        | some (n, rest) => some (Json.num (-(n : Int)), rest)
        | none => none
      else if c.isDigit then
        match parseDigits (c :: cs) with
        | some (n, rest) => some (Json.num (n : Int), rest)
        | none => none
      else if c = '[' then
        match skipWs cs with
        | ']' :: rest => some (Json.arr [], rest)
        | cs' => parseArrItems fuel cs' []
      else if c = '\x7b' then
        match skipWs cs with
        | '\x7d' :: rest => some (Json.obj [], rest)
        | cs' => parseObjItems fuel cs' []
      else none

/-- Parses the items of a JSON array (after `[`), accumulating in order. -/
def parseArrItems : Nat → List Char → List Json → Option (Json × List Char)
  | 0, _, _ => none
  | fuel + 1, input, acc =>
    match parseVal fuel input with
    | none => none
    | some (v, rest) =>
      match skipWs rest with
      | ',' :: rest' => parseArrItems fuel rest' (acc ++ [v])
      | ']' :: rest' => some (Json.arr (acc ++ [v]), rest')
      | _ => none

/-- Parses the members of a JSON object (after `{`), accumulating in order. -/
def parseObjItems : Nat → List Char → List (String × Json) → Option (Json × List Char)
  | 0, _, _ => none
  | fuel + 1, input, acc =>
    match skipWs input with
    | '"' :: cs =>
      match parseStringBody (cs.length + 1) cs "" with
      | none => none
      | some (k, rest) =>
        match skipWs rest with
        | ':' :: rest' =>
          match parseVal fuel rest' with
          | none => none
          | some (v, rest'') =>
            match skipWs rest'' with
            | ',' :: rest3 => parseObjItems fuel rest3 (objInsert acc k v)
            | '\x7d' :: rest3 => some (Json.obj (objInsert acc k v), rest3)
            | _ => none
        | _ => none
    | _ => none

end

/-- Modelled from the spec: `json_tool.json_load` — parse a JSON document,
failing (`none`, standing for a raised exception) on malformed input. -/
def json_load (s : String) : Option Json :=
  match parseVal (s.length + 1) s.data with
  | some (v, rest) => if skipWs rest = [] then some v else none
  | none => none

/-! ## MD5 — `hash_tool.md5sum`

`hash_tool.py` is not in the analysed source tree; its unit tests
(`test_topsailai_utils_hash_tool.py`) pin `md5sum` to the MD5 hex digest of
the UTF-8 encoding of the input, so the algorithm is implemented here in
full.  32-bit machine arithmetic is modelled by `Nat` with explicit
`% 2^32`. -/

/-- `2^32`, the modulus of the 32-bit machine words of MD5. -/
def m32 : Nat := 4294967296

/-- Addition modulo `2^32`. -/
def add32 (a b : Nat) : Nat := (a + b) % m32

/-- Bitwise complement of a 32-bit word (assumes `a < 2^32`). -/
def not32 (a : Nat) : Nat := (m32 - 1) - a % m32

/-- Left rotation of a 32-bit word by `s` bits (assumes `x < 2^32`, `s ≤ 32`). -/
def rotl32 (x s : Nat) : Nat := ((x <<< s) % m32) ||| (x >>> (32 - s))

/-- UTF-8 encoding of one character, as a list of byte values. -/
def utf8Encode (c : Char) : List Nat :=
  let n := c.toNat
  if n < 128 then [n]
  else if n < 2048 then [192 + n / 64, 128 + n % 64]
  else if n < 65536 then [224 + n / 4096, 128 + (n / 64) % 64, 128 + n % 64]
  else [240 + n / 262144, 128 + (n / 4096) % 64, 128 + (n / 64) % 64, 128 + n % 64]

/-- UTF-8 encoding of a string (Python `text.encode()`). -/
def utf8Bytes (s : String) : List Nat := s.data.flatMap utf8Encode

/-- MD5 padding: `0x80`, zeros to 56 mod 64, then the bit length in 8
little-endian bytes. -/
def md5Pad (msg : List Nat) : List Nat :=
  let len := msg.length
  let zeros := (119 - len % 64) % 64
  let bits := len * 8
  msg ++ [128] ++ List.replicate zeros 0 ++
    (List.range 8).map (fun i => (bits >>> (8 * i)) % 256)

/-- Splits a byte list into 64-byte blocks. -/
def chunks64 (l : List Nat) : List (List Nat) :=
  if h : l = [] then []
  else l.take 64 :: chunks64 (l.drop 64)
termination_by l.length
decreasing_by
  simp only [List.length_drop]
  have : 0 < l.length := List.length_pos.mpr h
  omega

/-- The MD5 sine-derived constant table `K`. -/
def md5K : List Nat :=
  [3614090360, 3905402710, 606105819, 3250441966, 4118548399, 1200080426,
   2821735955, 4249261313, 1770035416, 2336552879, 4294925233, 2304563134,
   1804603682, 4254626195, 2792965006, 1236535329, 4129170786, 3225465664,
   643717713, 3921069994, 3593408605, 38016083, 3634488961, 3889429448,
   568446438, 3275163606, 4107603335, 1163531501, 2850285829, 4243563512,
   1735328473, 2368359562, 4294588738, 2272392833, 1839030562, 4259657740,
   2763975236, 1272893353, 4139469664, 3200236656, 681279174, 3936430074,
   3572445317, 76029189, 3654602809, 3873151461, 530742520, 3299628645,
   4096336452, 1126891415, 2878612391, 4237533241, 1700485571, 2399980690,
   4293915773, 2240044497, 1873313359, 4264355552, 2734768916, 1309151649,
   4149444226, 3174756917, 718787259, 3951481745]

/-- The MD5 per-round shift amounts `S`. -/
def md5S : List Nat :=
  [7, 12, 17, 22, 7, 12, 17, 22, 7, 12, 17, 22, 7, 12, 17, 22,
   5, 9, 14, 20, 5, 9, 14, 20, 5, 9, 14, 20, 5, 9, 14, 20,
   4, 11, 16, 23, 4, 11, 16, 23, 4, 11, 16, 23, 4, 11, 16, 23,
   6, 10, 15, 21, 6, 10, 15, 21, 6, 10, 15, 21, 6, 10, 15, 21]

/-- One MD5 round: updates the running `(A, B, C, D)` state with round
index `i`, reading the block's 32-bit words through `M`. -/
def md5Round (M : Nat → Nat) (st : Nat × Nat × Nat × Nat) (i : Nat) :
    Nat × Nat × Nat × Nat :=
  let (A, B, C, D) := st
  let (F, g) :=
    if i < 16 then ((B &&& C) ||| (not32 B &&& D), i)
    else if i < 32 then ((D &&& B) ||| (not32 D &&& C), (5 * i + 1) % 16)
    else if i < 48 then (B ^^^ C ^^^ D, (3 * i + 5) % 16)
    else (C ^^^ (B ||| not32 D), (7 * i) % 16)
  let F' := add32 (add32 (add32 F A) (md5K.getD i 0)) (M g)
  (D, add32 B (rotl32 F' (md5S.getD i 0)), B, C)

/-- Processes one 64-byte block, updating the four MD5 state words. -/
def md5Block (st : Nat × Nat × Nat × Nat) (block : List Nat) :
    Nat × Nat × Nat × Nat :=
  let M : Nat → Nat := fun g =>
    block.getD (4 * g) 0 + 256 * block.getD (4 * g + 1) 0 +
    65536 * block.getD (4 * g + 2) 0 + 16777216 * block.getD (4 * g + 3) 0
  let (a0, b0, c0, d0) := st
  let (A, B, C, D) := (List.range 64).foldl (md5Round M) st
  (add32 a0 A, add32 b0 B, add32 c0 C, add32 d0 D)

/-- One lowercase hex digit. -/
def hexDigit (n : Nat) : Char :=
  if n < 10 then Char.ofNat (48 + n) else Char.ofNat (87 + n)

/-- Two lowercase hex digits of a byte. -/
def byteToHex (b : Nat) : String :=
  String.mk [hexDigit (b / 16 % 16), hexDigit (b % 16)]

/-- Little-endian hex rendering of a 32-bit word. -/
def word32LEHex (w : Nat) : String :=
  byteToHex (w % 256) ++ byteToHex (w >>> 8 % 256) ++
  byteToHex (w >>> 16 % 256) ++ byteToHex (w >>> 24 % 256)

/-- Modelled from the spec and the repository's unit tests:
`hash_tool.md5sum` (`hash_tool.py` is not in the analysed source tree) — the
MD5 hex digest of the UTF-8 encoding of the input string.  The unit tests pin
e.g. `md5sum "hello" = "5d41402abc4b2a76b9719d911017c592"`. -/
def md5sum (s : String) : String :=
  let blocks := chunks64 (md5Pad (utf8Bytes s))
  let (a, b, c, d) :=
    blocks.foldl md5Block (1732584193, 4023233417, 2562383102, 271733878)
  word32LEHex a ++ word32LEHex b ++ word32LEHex c ++ word32LEHex d

/-! ## Messages

Modelled from the spec: `constants.py` is not in the analysed source tree;
the roles are the spec's enum `{system, user, assistant, tool}`. -/

/-- `ROLE_SYSTEM`. -/
def ROLE_SYSTEM : String := "system"
/-- `ROLE_USER`. -/
def ROLE_USER : String := "user"
/-- `ROLE_ASSISTANT`. -/
def ROLE_ASSISTANT : String := "assistant"
/-- `ROLE_TOOL`. -/
def ROLE_TOOL : String := "tool"

/-- A tool-invocation descriptor (`ChatCompletionMessageToolCall`): call id,
function name and the JSON-encoded arguments text. -/
structure ToolCall where
  id : String
  name : String
  arguments : String
deriving DecidableEq, Repr

/-- One message dict of the live context list.  `toolCalls = none` covers both
an absent `tool_calls` key and a `None` value (the code only ever tests the
key's truthiness).  `toolCallId` distinguishes an absent `tool_call_id` key
(`none`) from a present key holding `None` (`some none`) — `link_messages`
tests key *presence* while `add_tool_message` writes an explicit `None`. -/
structure Msg where
  role : String
  content : String
  toolCalls : Option (List ToolCall)
  toolCallId : Option (Option String)
deriving DecidableEq, Repr

/-- Python truthiness of an optional string (`if tool_call_id:` etc.). -/
def optStrTruthy : Option String → Bool
  | none => false
  | some s => s ≠ ""

/-! ## Chat-history storage — `chat_history_manager/__base.py`

The durable store itself is behind the abstract `MessageStorageBase`; the
concrete SQL backend is not in the analysed source tree, so `Store.addMessage`
is modelled from the spec's contract.  Everything above it
(`ChatHistoryMessageData`, `ContextManager._link_msg_id`,
`ContextManager.link_messages`, `ContextManager.add_session_message`) is
translated from the source. -/

/-- The durable chat-history store: archived message records
(`msg_id ↦ message`) and session↔message mapping rows. -/
structure Store where
  records : List (String × String)
  mappings : List (Option String × String)
deriving DecidableEq, Repr

/-- `ChatHistoryMessageData` (the data carried to the store). -/
structure ChatHistoryMessageData where
  msgId : Option String
  sessionId : Option String
  message : String
  msgSize : Nat
deriving DecidableEq, Repr

/-- `ChatHistoryMessageData.__init__`: generates `msg_id` as the MD5 of the
message content when no (truthy) id is supplied and the message is non-empty;
`msg_size` is the message length. -/
def mkChatHistoryMessageData (message : String) (msgId : Option String)
    (sessionId : Option String) : ChatHistoryMessageData :=
  let mid := if ¬optStrTruthy msgId ∧ message ≠ "" then some (md5sum message) else msgId
  ⟨mid, sessionId, message, message.length⟩

/-- Modelled from the spec: the concrete storage backend's `add_message`
("no-op if a record with the same content-derived id already exists; always
ensures a session↔message mapping row exists; at-most-once storage per unique
content").  A record with a null `msg_id` has no specified behaviour and is
left unstored. -/
def Store.addMessage (st : Store) (msg : ChatHistoryMessageData) : Store :=
  match msg.msgId with
  | none => st
  | some mid =>
    let recs :=
      if st.records.any (fun r => r.1 = mid) then st.records
      else st.records ++ [(mid, msg.message)]
    let maps :=
      if st.mappings.any (fun p => p.1 = msg.sessionId ∧ p.2 = mid) then st.mappings
      else st.mappings ++ [(msg.sessionId, mid)]
    ⟨recs, maps⟩

/-- `ContextManager.prefix_raw_text_retrieve_msg`. -/
def prefix_raw_text_retrieve_msg : String := "retrieve_msg by msg_id="

/-- `ContextManager.attention_step_names`. -/
def attention_step_names : List String := ["action", "observation"]

/-- `ContextManager.ignored_roles`. -/
def ignored_roles : List String := [ROLE_SYSTEM, ROLE_USER]

/-- Python `f"...{x}"` of an optional string (`None` renders as `"None"`). -/
def pyShowOptStr : Option String → String
  | none => "None"
  | some s => s

/-- Key lookup in a parsed JSON object. -/
def objLookup (kvs : List (String × Json)) (k : String) : Option Json :=
  (kvs.find? (fun p => p.1 = k)).map Prod.snd

/-- The message text `_link_msg_id` extracts from a step dict: the `raw_text`
value if the dict is the 2-key `{step_name, raw_text}` shape (JSON-encoded if
not a string), else the whole dict JSON-encoded. -/
def extractLinkMessage (contentDict : List (String × Json)) : String :=
  if contentDict.length = 2 ∧ (objLookup contentDict "raw_text").isSome then
    match objLookup contentDict "raw_text" with
    | some (Json.str s) => s
    | some v => jsonDump v
    | none => jsonDump (Json.obj contentDict)
  else jsonDump (Json.obj contentDict)

/-- The archive-reference step dict `_link_msg_id` writes in place of an
archived step. -/
def archiveDict (msgId : Option String) : List (String × Json) :=
  [("step_name", Json.str "archive"),
   ("raw_text", Json.str (prefix_raw_text_retrieve_msg ++ pyShowOptStr msgId))]

/-- `ContextManager._link_msg_id`: archive one step dict — persist its text
(content-addressed) and replace the dict with the archive reference. -/
def linkMsgId (store : Store) (sessionId : Option String)
    (contentDict : List (String × Json)) : Store × List (String × Json) :=
  let message := extractLinkMessage contentDict
  let msgObj := mkChatHistoryMessageData message none sessionId
  let store' := store.addMessage msgObj
  (store', archiveDict msgObj.msgId)

/-- Modelled from the spec and the repository's unit tests:
`format_tool.to_list` (`format_tool.py` is not in the analysed source tree) —
a list is returned unchanged, any other value is wrapped in a one-element
list.  (Identical in behaviour to `llm_base._to_list` on parsed JSON.) -/
def to_list : Json → List Json
  | .arr xs => xs
  | j => [j]

/-- Python `needle in haystack` on strings (substring containment). -/
def pyInStr (needle haystack : String) : Bool :=
  (haystack.splitOn needle).length > 1

/-- Classification of one element of a message's parsed step list by the loop
body of `link_messages`: kept as is, eligible for archival, or raising a
`TypeError` (Python `in` on a non-container, indexing a string/list with a
string key, or an unhashable `step_name` value in the set-membership test). -/
inductive StepScan where
  | keep : StepScan
  | archive (kvs : List (String × Json)) : StepScan
  | raiseErr : StepScan

/-- Scans one step element as the `link_messages` loop body does: only dicts
with a `step_name` in the attention set and a `str(...)` rendering longer than
`max_size` are archived. -/
def scanStep (maxSize : Nat) (e : Json) : StepScan :=
  match e with
  | Json.obj kvs =>
    match objLookup kvs "step_name" with
    | none => .keep
    | some (Json.str s) =>
      if s ∈ attention_step_names then
        if (pyStr (Json.obj kvs)).length ≤ maxSize then .keep else .archive kvs
      else .keep
    | some (Json.arr _) => .raiseErr
    | some (Json.obj _) => .raiseErr
    | some _ => .keep
  | Json.str s => if pyInStr "step_name" s then .raiseErr else .keep
  | Json.arr xs =>
    if xs.any (fun x => match x with | Json.str t => t = "step_name" | _ => false)
    then .raiseErr else .keep
  | _ => .raiseErr

/-- Processes the step list of one message: threads the store, builds the new
step list, and reports whether anything changed and whether the loop raised
(aborting the whole `link_messages` call). -/
def processSteps (sessionId : Option String) (maxSize : Nat) :
    Store → List Json → Store × List Json × Bool × Bool
  | store, [] => (store, [], false, false)
  | store, e :: rest =>
    match scanStep maxSize e with
    | .raiseErr => (store, [], false, true)
    | .keep =>
      let r := processSteps sessionId maxSize store rest
      (r.1, e :: r.2.1, r.2.2.1, r.2.2.2)
    | .archive kvs =>
      let r1 := linkMsgId store sessionId kvs
      let r := processSteps sessionId maxSize r1.1 rest
      (r.1, Json.obj r1.2 :: r.2.1, true, r.2.2.2)

/-- The `link_messages` loop body for one in-window message.  Returns the
updated store, the (possibly content-rewritten) message, and whether a Python
exception escaped (empty content indexed by `content[0]`, or a `TypeError`
from the step scan) — in which case the message is left unchanged and the
whole call aborts, keeping the store mutations already performed. -/
def linkOneMsg (sessionId : Option String) (maxSize : Nat) (store : Store)
    (msg : Msg) : Store × Msg × Bool :=
  if msg.role ∈ ignored_roles ∧ ¬(msg.role = ROLE_USER ∧ msg.toolCallId.isSome) then
    (store, msg, false)
  else
    match msg.content.data with
    | [] => (store, msg, true)
    | c :: _ =>
      if c ≠ '\x7b' ∧ c ≠ '[' then (store, msg, false)
      else
        match json_load msg.content with
        | none => (store, msg, false)
        | some obj =>
          if ¬jsonTruthy obj then (store, msg, false)
          else
            let r := processSteps sessionId maxSize store (to_list obj)
            if r.2.2.2 then (r.1, msg, true)
            else if r.2.2.1 then
              (r.1, { msg with content := jsonDump (Json.arr r.2.1) }, false)
            else (r.1, msg, false)

/-- A Python slice bound: negative indices count from the end, clamped to
`[0, n]`. -/
def sliceBound (n : Nat) (i : Int) : Nat :=
  if i < 0 then ((n : Int) + i).toNat else min i.toNat n

/-- Walks the message list by index, applying `linkOneMsg` inside the window
`[eS, eE)` until a raise aborts the traversal; messages outside the window
(and after a raise) are untouched. -/
def linkMessagesAux (sessionId : Option String) (maxSize eS eE : Nat) :
    Store → Nat → Bool → List Msg → Store × List Msg
  | store, _, _, [] => (store, [])
  | store, i, raised, m :: rest =>
    if eS ≤ i ∧ i < eE ∧ ¬raised then
      let r1 := linkOneMsg sessionId maxSize store m
      let r2 := linkMessagesAux sessionId maxSize eS eE r1.1 (i + 1) r1.2.2 rest
      (r2.1, r1.2.1 :: r2.2)
    else
      let r2 := linkMessagesAux sessionId maxSize eS eE store (i + 1) raised rest
      (r2.1, m :: r2.2)

/-- `ContextManager.link_messages`: archive oversized attention steps of the
messages in the slice `messages[index_start:index_end]`, in place.  The source
defaults are `index_start=3`, `index_end=-11`, `max_size=1024`. -/
def link_messages (store : Store) (sessionId : Option String) (msgs : List Msg)
    (indexStart indexEnd : Int) (maxSize : Nat) : Store × List Msg :=
  linkMessagesAux sessionId maxSize (sliceBound msgs.length indexStart)
    (sliceBound msgs.length indexEnd) store 0 false msgs

/-- JSON rendering of a `ToolCall` for session persistence. -/
def toolCallToJson (tc : ToolCall) : Json :=
  Json.obj [("id", Json.str tc.id),
            ("type", Json.str "function"),
            ("function", Json.obj [("name", Json.str tc.name),
                                   ("arguments", Json.str tc.arguments)])]

/-- The message dict serialized by `ContextManager.add_session_message`:
`create_time` is prepended for non-system messages, then the message's own
keys follow. -/
def sessionMsgJson (m : Msg) (createTime : Option String) : Json :=
  Json.obj (
    (match createTime with
     | some t => [("create_time", Json.str t)]
     | none => []) ++
    [("role", Json.str m.role), ("content", Json.str m.content)] ++
    (match m.toolCalls with
     | none => []
     | some tcs => [("tool_calls", Json.arr (tcs.map toolCallToJson))]) ++
    (match m.toolCallId with
     | none => []
     | some v => [("tool_call_id", match v with
                                   | none => Json.null
                                   | some s => Json.str s)]))

/-- `ContextManager.add_session_message`: persist the last message of the
session (content-addressed), skipping when no usable session id is bound;
`now` is the wall-clock date attached as `create_time` to non-system
messages. -/
def ctxAddSessionMessage (store : Store) (sessionId : Option String)
    (now : String) (lastMessage : Msg) : Store :=
  match sessionId with
  | none => store
  | some sid =>
    if sid = "" ∨ sid = "None" then store
    else
      let ct := if lastMessage.role ≠ ROLE_SYSTEM then some now else none
      let s := jsonDump (sessionMsgJson lastMessage ct)
      store.addMessage (mkChatHistoryMessageData s none (some sid))

/-! ## Threshold policy — `ThresholdContextHistory` (`prompt_base.py`)

`count_tokens` is the spec-designated opaque oracle
(`count_tokens(text) -> int`); it enters as a function parameter
`countTokens`, already composed with Python `str(...)` on the message list.
The float comparison `float(token_count)/token_max >= 0.8` is modelled as
exact rational arithmetic: `10 * token_count ≥ 8 * token_max`. -/

/-- The threshold configuration: `token_max` and `slim_len` (environment
overrides of the class defaults `1280000` and `43`). -/
structure ThresholdContextHistory where
  token_max : Nat
  slim_len : Nat
deriving DecidableEq, Repr

/-- `ThresholdContextHistory.SLIM_MIN_LEN`. -/
def SLIM_MIN_LEN : Nat := 27

/-- `ThresholdContextHistory.exceed_ratio`: token count over `token_max`
reaches the ratio `0.8`. -/
def exceed_ratio (t : ThresholdContextHistory) (tokenCount : Nat) : Bool :=
  10 * tokenCount ≥ 8 * t.token_max

/-- `ThresholdContextHistory.exceed_msg_len`. -/
def exceed_msg_len (t : ThresholdContextHistory) (msgLen : Nat) : Bool :=
  msgLen ≥ max SLIM_MIN_LEN t.slim_len

/-- `ThresholdContextHistory.is_exceeded`: length threshold first, then the
token-ratio threshold on `count_tokens(str(messages))`. -/
def is_exceeded (t : ThresholdContextHistory) (countTokens : List Msg → Nat)
    (messages : List Msg) : Bool :=
  if exceed_msg_len t messages.length then true
  else if exceed_ratio t (countTokens messages) then true
  else false

/-! ## `PromptBase` (`prompt_base.py`)

The live context state.  Ambient inputs come in as parameters: `countTokens`
(the token oracle), `now` (the wall clock, used for `create_time`), and `env`
(the string `generate_prompt_for_env()` returns at that moment —
`prompt_env.py` derives it from the current date and system facts).  The
`hooks_after_init_prompt` / `hooks_after_new_session` lists are empty in
`PromptBase.__init__` and stay so in the base class modelled here. -/

/-- The `PromptBase` instance state: configuration, the bound session id
(thread-local `get_session_id()`), the configured history stores
(`hooks_ctx_history`), and the live message list. -/
structure PState where
  system_prompt : String
  tool_prompt : String
  threshold : ThresholdContextHistory
  sessionId : Option String
  stores : List Store
  messages : List Msg
deriving DecidableEq, Repr

/-- The archival phase of the hook chain, one store at a time, threading the
live message list: each configured store's `link_messages` runs in turn on the
current message list (exceptions are swallowed per store, which the
raise-aware `link_messages` model already reflects). -/
def linkAllStoresGo (sessionId : Option String) :
    List Store → List Msg → List Store × List Msg
  | [], msgs => ([], msgs)
  | s :: rest, msgs =>
    let r := link_messages s sessionId msgs 3 (-11) 1024
    let r2 := linkAllStoresGo sessionId rest r.2
    (r.1 :: r2.1, r2.2)

/-- The archival phase of the hook chain
(`for hook in self.hooks_ctx_history: hook.link_messages(self.messages)`). -/
def linkAllStores (st : PState) : PState :=
  let r := linkAllStoresGo st.sessionId st.stores st.messages
  { st with stores := r.1, messages := r.2 }

/-- `PromptBase.call_hooks_ctx_history`: record the just-appended message to
every store when a session id is bound, then archive via `link_messages` when
the threshold is exceeded. -/
def callHooksCtxHistory (ct : List Msg → Nat) (now : String) (st : PState) :
    PState :=
  if st.stores.isEmpty then st
  else
    let st1 :=
      if optStrTruthy st.sessionId then
        match st.messages.getLast? with
        | some last =>
          { st with stores :=
              st.stores.map (fun s => ctxAddSessionMessage s st.sessionId now last) }
        | none => st
      else st
    if is_exceeded st1.threshold ct st1.messages then linkAllStores st1
    else st1

/-- `PromptBase.append_message`: push the message, then run the
context-history hook chain. -/
def appendMessage (ct : List Msg → Nat) (now : String) (st : PState) (m : Msg) :
    PState :=
  callHooksCtxHistory ct now { st with messages := st.messages ++ [m] }

/-- Modelled from the spec and the repository's unit tests:
`json_tool.to_json_str` (`json_tool.py` is not in the analysed source tree) —
structured content renders to a deterministic JSON string; string content
passes through the `fix_llm_mistakes_on_json` repair, modelled here as the
identity (no analysed property depends on the repair's rewriting). -/
def to_json_str : Json → String
  | .str s => s
  | j => jsonDump j

/-- `PromptBase.reset_messages`: clear the list and rebuild the header —
system prompt, environment prompt, and the tool prompt when non-empty, each
through `append_message`. -/
def resetMessages (ct : List Msg → Nat) (now env : String) (st : PState) :
    PState :=
  let st1 := appendMessage ct now { st with messages := [] }
      ⟨ROLE_SYSTEM, st.system_prompt, none, none⟩
  let st2 := appendMessage ct now st1 ⟨ROLE_SYSTEM, env, none, none⟩
  if st.tool_prompt ≠ "" then
    appendMessage ct now st2 ⟨ROLE_SYSTEM, st.tool_prompt, none, none⟩
  else st2

/-- `PromptBase.update_message_for_env`: overwrite `messages[1]` with a fresh
environment prompt. -/
def updateMessageForEnv (env : String) (st : PState) : PState :=
  { st with messages := st.messages.set 1 ⟨ROLE_SYSTEM, env, none, none⟩ }

/-- `PromptBase.add_user_message`: a `None` content returns immediately;
otherwise the formatted content is appended as a user message. -/
def addUserMessage (ct : List Msg → Nat) (now : String) (st : PState)
    (content : Option Json) : PState :=
  match content with
  | none => st
  | some c => appendMessage ct now st ⟨ROLE_USER, to_json_str c, none, none⟩

/-- `PromptBase.add_assistant_message`: a `None` content returns immediately;
otherwise the formatted content is appended as an assistant message with the
given `tool_calls` value. -/
def addAssistantMessage (ct : List Msg → Nat) (now : String) (st : PState)
    (content : Option Json) (toolCalls : Option (List ToolCall)) : PState :=
  match content with
  | none => st
  | some c => appendMessage ct now st ⟨ROLE_ASSISTANT, to_json_str c, toolCalls, none⟩

/-- `PromptBase.get_tool_call_id`: the id of the first tool call of the *last*
message, when that message carries a truthy `tool_calls`.  (Python would raise
on an empty list; the header keeps the list non-empty, and the model returns
`none` there.) -/
def getToolCallId (st : PState) : Option String :=
  match st.messages.getLast? with
  | none => none
  | some last =>
    match last.toolCalls with
    | some (tc :: _) => some tc.id
    | _ => none

/-- `PromptBase.add_tool_message`: a `None` content returns immediately;
otherwise the message is appended as tool-role with the resolved
`tool_call_id` when that is truthy, and degrades to a user-role message with a
null `tool_call_id` otherwise. -/
def addToolMessage (ct : List Msg → Nat) (now : String) (st : PState)
    (content : Option Json) : PState :=
  match content with
  | none => st
  | some c =>
    let cStr := to_json_str c
    let tid := getToolCallId st
    if optStrTruthy tid then
      appendMessage ct now st ⟨ROLE_TOOL, cStr, none, some tid⟩
    else
      appendMessage ct now st ⟨ROLE_USER, cStr, none, some none⟩

/-- `PromptBase.init_prompt`: reset; the `hooks_after_init_prompt` list is
empty in the base class. -/
def initPrompt (ct : List Msg → Nat) (now env : String) (st : PState) : PState :=
  resetMessages ct now env st

/-- `PromptBase.new_session`: `init_prompt` then the initial user message; the
`hooks_after_new_session` list is empty in the base class. -/
def newSession (ct : List Msg → Nat) (now env : String) (st : PState)
    (userMessage : Option Json) : PState :=
  addUserMessage ct now (initPrompt ct now env st) userMessage

/-- `PromptBase.__init__` (the state part): store the prompts and
configuration, then `reset_messages`. -/
def mkPromptBase (ct : List Msg → Nat) (now env system_prompt tool_prompt : String)
    (threshold : ThresholdContextHistory) (sessionId : Option String)
    (stores : List Store) : PState :=
  resetMessages ct now env ⟨system_prompt, tool_prompt, threshold, sessionId, stores, []⟩

/-- One public operation on a `PromptBase`, with the ambient-oracle values
(`now`, `env`) it consumes. -/
inductive POp where
  | reset (now env : String) : POp
  | newSess (now env : String) (content : Option Json) : POp
  | addUser (now : String) (content : Option Json) : POp
  | addAssistant (now : String) (content : Option Json)
      (tcs : Option (List ToolCall)) : POp
  | addTool (now : String) (content : Option Json) : POp
  | updateEnv (env : String) : POp
  | linkMsgs : POp

/-- Applies one operation. -/
def applyOp (ct : List Msg → Nat) (st : PState) : POp → PState
  | .reset now env => resetMessages ct now env st
  | .newSess now env c => newSession ct now env st c
  | .addUser now c => addUserMessage ct now st c
  | .addAssistant now c tcs => addAssistantMessage ct now st c tcs
  | .addTool now c => addToolMessage ct now st c
  | .updateEnv env => updateMessageForEnv env st
  | .linkMsgs => linkAllStores st

/-- Applies a sequence of operations in order. -/
def applyOps (ct : List Msg → Nat) (st : PState) (ops : List POp) : PState :=
  ops.foldl (applyOp ct) st

/-- The header invariant, decidably: `messages[0]` is the system prompt as a
system-role message, `messages[1]` is a system-role message (the environment
prompt), and when the tool prompt is non-empty `messages[2]` is the tool
prompt as a system-role message. -/
def headerInvariant (st : PState) : Bool :=
  (match st.messages.get? 0 with
   | some m0 => (m0.role == ROLE_SYSTEM) && (m0.content == st.system_prompt)
   | none => false) &&
  (match st.messages.get? 1 with
   | some m1 => m1.role == ROLE_SYSTEM
   | none => false) &&
  (if st.tool_prompt ≠ "" then
     match st.messages.get? 2 with
     | some m2 => (m2.role == ROLE_SYSTEM) && (m2.content == st.tool_prompt)
     | none => false
   else true)

/-! ## LLM gateway — `llm_base.py`

The provider endpoint is an external oracle: a non-streaming call yields a
`CCMessage` (the `response.choices[0].message` of the SDK), a streaming call
yields a chunk list.  Request construction, token statistics and logging do
not affect the analysed properties and are not modelled. -/

/-- Modelled from the spec: `format_tool.TOPSAILAI_STEP_ACTION`
(`format_tool.py` is not in the analysed source tree) — the non-empty
placeholder "action" marker string substituted for missing content when tool
calls are present. -/
def TOPSAILAI_STEP_ACTION : String := "action"

/-- The normalized provider message (`ChatCompletionMessage`): role, optional
content, and the tool calls (empty list for an absent/`None` field, whose
truthiness is all the code tests). -/
structure CCMessage where
  role : String
  content : Option String
  toolCalls : List ToolCall
deriving DecidableEq, Repr

/-- `LLMModel.format_null_response_content`: keep truthy content; substitute
the action marker when content is falsy but tool calls are present; otherwise
return the falsy content unchanged. -/
def format_null_response_content (ccm : CCMessage) (c : Option String) :
    Option String :=
  if optStrTruthy c then c
  else if !ccm.toolCalls.isEmpty then some TOPSAILAI_STEP_ACTION
  else c

/-- `LLMModel.fix_response_content`. -/
def fix_response_content (ccm : CCMessage) (c : Option String) : Option String :=
  if optStrTruthy c then c else format_null_response_content ccm c

/-- Python's `str.strip()` whitespace set. -/
def isPyWhitespace (c : Char) : Bool :=
  c = ' ' ∨ c = '\n' ∨ c = '\t' ∨ c = '\r' ∨ c = '\x0b' ∨ c = '\x0c'

/-- Python `s.strip()`: drop leading and trailing whitespace. -/
def pyStrip (s : String) : String :=
  String.mk (((s.data.dropWhile isPyWhitespace).reverse.dropWhile isPyWhitespace).reverse)

/-- `LLMModel.check_response_content`: raises `TypeError("no response")` on a
`None` content and `TypeError("null of response")` on a blank one. -/
def check_response_content (c : Option String) : Except String Unit :=
  match c with
  | none => .error "no response"
  | some s => if pyStrip s = "" then .error "null of response" else .ok ()

/-- `LLMModel.call_llm_model` (response handling): extract the message
content, call `fix_response_content` — whose return value the source
*discards* — then `check_response_content` on the original content, and
return the response with that original content. -/
def call_llm_model (response : CCMessage) : Except String (CCMessage × Option String) :=
  let full_content := response.content
  let _fixed := fix_response_content response full_content
  match check_response_content full_content with
  | .error e => .error e
  | .ok _ => .ok (response, full_content)

/-- A partial function fragment of one streamed tool-call delta. -/
structure DeltaFunction where
  name : Option String
  arguments : Option String
deriving DecidableEq, Repr

/-- One streamed tool-call delta: the provider's per-call index, an optional
id fragment and an optional function fragment. -/
structure DeltaToolCall where
  index : Nat
  id : Option String
  function : Option DeltaFunction
deriving DecidableEq, Repr

/-- One streamed chunk (`chunk.choices[0].delta`): optional content delta and
the tool-call deltas (empty for an absent/`None` field, per
`delta_obj.tool_calls or []`). -/
structure StreamChunk where
  content : Option String
  toolCalls : List DeltaToolCall
deriving DecidableEq, Repr

/-- The per-index accumulator of the streaming loop
(`full_tool_calls_dict[_index]`). -/
structure ToolCallAcc where
  id : String
  name : String
  arguments : String
deriving DecidableEq, Repr

/-- Applies one tool-call delta to the accumulator dict: a fresh index is
inserted empty; a truthy id or function name overwrites, truthy argument text
is concatenated. -/
def applyDelta (dict : List (Nat × ToolCallAcc)) (tc : DeltaToolCall) :
    List (Nat × ToolCallAcc) :=
  let dict :=
    if dict.any (fun p => p.1 = tc.index) then dict
    else dict ++ [(tc.index, ⟨"", "", ""⟩)]
  dict.map (fun p =>
    if p.1 = tc.index then
      let acc := p.2
      let acc := match tc.id with
        | some s => if s ≠ "" then { acc with id := s } else acc
        | none => acc
      let acc := match tc.function with
        | none => acc
        | some f =>
          let acc := match f.name with
            | some s => if s ≠ "" then { acc with name := s } else acc
            | none => acc
          match f.arguments with
          | some s => if s ≠ "" then { acc with arguments := acc.arguments ++ s } else acc
          | none => acc
      (tc.index, acc)
    else p)

/-- Folds one chunk into the streaming state: concatenate truthy content
deltas, apply each tool-call delta. -/
def processChunk (state : String × List (Nat × ToolCallAcc)) (chunk : StreamChunk) :
    String × List (Nat × ToolCallAcc) :=
  let content := match chunk.content with
    | some s => if s ≠ "" then state.1 ++ s else state.1
    | none => state.1
  (content, chunk.toolCalls.foldl applyDelta state.2)

/-- Materializes the accumulator dict into the final tool-call list, ordered
by ascending index (`for _index in sorted(full_tool_calls_dict.keys())`). -/
def materializeToolCalls (dict : List (Nat × ToolCallAcc)) : List ToolCall :=
  let keys := (dict.map Prod.fst).insertionSort (· ≤ ·)
  keys.filterMap (fun k =>
    (dict.find? (fun p => p.1 = k)).map (fun p => ⟨p.2.id, p.2.name, p.2.arguments⟩))

/-- `LLMModel.call_llm_model_by_stream`: fold the chunks, materialize the
tool-call list, strip the accumulated content, synthesize the assistant
`CCMessage`, then apply the fix (assigned here, unlike the non-streaming
path) and the check. -/
def call_llm_model_by_stream (chunks : List StreamChunk) :
    Except String (CCMessage × Option String) :=
  let (fullContent, dict) := chunks.foldl processChunk ("", [])
  let toolCalls := materializeToolCalls dict
  let fc := pyStrip fullContent
  let ccm : CCMessage := ⟨ROLE_ASSISTANT, some fc, toolCalls⟩
  let fixed := fix_response_content ccm (some fc)
  match check_response_content fixed with
  | .error e => .error e
  | .ok _ => .ok (ccm, fixed)

/-- The error classes the retry loop of `LLMModel.chat` distinguishes. -/
inductive ChatErr where
  | jsonError : ChatErr
  | rateLimit : ChatErr
  | typeError : ChatErr
  | internalServer : ChatErr
  | apiConnection : ChatErr
  | apiTimeout : ChatErr
  | permissionDenied : ChatErr
  | badRequest : ChatErr
deriving DecidableEq, Repr

/-- The outcome of one underlying call attempt (the whole `try` body: the
provider call, content checking and response formatting), as an oracle over
the attempt index. -/
inductive AttemptOutcome (α : Type) where
  | ok (result : α) : AttemptOutcome α
  | err (e : ChatErr) : AttemptOutcome α

/-- The error classes whose handlers extend `retry_times` when the attempt
index exceeds 7 (rate limit, internal server, connection, timeout). -/
def extendsBudget : ChatErr → Bool
  | .rateLimit => true
  | .internalServer => true
  | .apiConnection => true
  | .apiTimeout => true
  | _ => false

/-- The retry loop of `LLMModel.chat`: `for i in range(100)`, breaking when
`i > retry_times` and raising `"chat to LLM is failed"` after the loop.
Returns the result together with the number of underlying call attempts
performed.  (The backoff sleep and the every-6th-internal-server-error
connection-pool rebuild affect no analysed property; the internal-server
error count is still threaded.) -/
def chatAux {α : Type} (f : Nat → AttemptOutcome α) :
    Nat → Nat → Nat → Nat → Except String α × Nat
  | 0, _, _, _ => (.error "chat to LLM is failed", 0)
  | fuel + 1, i, retryTimes, errISE =>
    if i > retryTimes then (.error "chat to LLM is failed", 0)
    else
      match f i with
      | .ok r => (.ok r, 1)
      | .err e =>
        let retryTimes' := if extendsBudget e ∧ i > 7 then retryTimes + 1 else retryTimes
        let errISE' := if e = ChatErr.internalServer then errISE + 1 else errISE
        let r := chatAux f fuel (i + 1) retryTimes' errISE'
        (r.1, r.2 + 1)

/-- `LLMModel.chat` (retry loop), with the initial retry budget as a
parameter — the source initializes `retry_times = 10`. -/
def chat {α : Type} (f : Nat → AttemptOutcome α) (retryTimes : Nat) :
    Except String α × Nat :=
  chatAux f 100 0 retryTimes 0

/-! ## Agent loop — `agent_base.py` (`AgentRun._run`)

The completion endpoint and the step executor are external oracles: `chat`
yields the response-message object and the formatted step list (or `none` for
a falsy response), `stepCall` classifies one step.  The loop itself is
unbounded in the source (`while True`); fuel makes the model total, and every
analysed property concerns a single turn. -/

/-- The response-message object (`rsp_msg`) the loop reads `tool_calls`
from. -/
structure RspMsg where
  toolCalls : Option (List ToolCall)
deriving DecidableEq, Repr

/-- The result of one `step_call(...)` invocation, by its status code —
`CODE_TASK_FINAL`, `CODE_TASK_FAILED`, `CODE_STEP_FINAL` (with the prepared
user/tool follow-up messages), or any other code (no branch taken). -/
inductive StepRet where
  | taskFinal (result : String) : StepRet
  | taskFailed (result : String) : StepRet
  | stepFinal (userMsg toolMsg : Option Json) : StepRet
  | noCode : StepRet

/-- The outcome of dispatching the steps of one turn. -/
inductive DispatchRes where
  | final (r : String) : DispatchRes
  | failed : DispatchRes
  | cont (st : PState) : DispatchRes

/-- The per-turn step-dispatch loop: steps in order; task-final returns,
task-failed aborts, step-final appends the user and tool messages and breaks,
any other code falls through to the next step. -/
def dispatchSteps (ct : List Msg → Nat) (now : String)
    (stepCall : Nat → Json → StepRet) (st : PState) :
    List Json → Nat → DispatchRes
  | [], _ => .cont st
  | step :: rest, i =>
    match stepCall i step with
    | .taskFinal r => .final r
    | .taskFailed _ => .failed
    | .stepFinal u t => .cont (addToolMessage ct now (addUserMessage ct now st u) t)
    | .noCode => dispatchSteps ct now stepCall st rest (i + 1)

/-- `AgentRun._run` (loop body): one iteration per completion call — abort on
a falsy response, append the assistant message, snapshot `ctx_count`, dispatch
the steps, abort when the context did not grow, else refresh the environment
header and loop.  Returns the result and the number of completion calls
issued. -/
def agentRunAux (ct : List Msg → Nat) (now env : String)
    (chatO : List Msg → Option (RspMsg × List Json))
    (stepCall : Nat → Json → StepRet) :
    Nat → PState → Option String × Nat
  | 0, _ => (none, 0)
  | fuel + 1, st =>
    match chatO st.messages with
    | none => (none, 1)
    | some (rspMsg, response) =>
      if response.isEmpty then (none, 1)
      else
        let st1 := addAssistantMessage ct now st (some (Json.arr response)) rspMsg.toolCalls
        let ctxCount := st1.messages.length
        match dispatchSteps ct now stepCall st1 response 0 with
        | .final r => (some r, 1)
        | .failed => (none, 1)
        | .cont st2 =>
          if st2.messages.length = ctxCount then (none, 1)
          else
            let st3 := updateMessageForEnv env st2
            let r := agentRunAux ct now env chatO stepCall fuel st3
            (r.1, r.2 + 1)

/-! ## Scenario builders and concrete states used by the theorems -/

/-- A streamed chunk delivering one tool call's id and function name under
index `idx`. -/
def nameChunk (idx : Nat) (id nm : String) : StreamChunk :=
  ⟨none, [⟨idx, some id, some ⟨some nm, none⟩⟩]⟩

/-- A streamed chunk delivering one fragment of a tool call's arguments text
under index `idx`. -/
def argChunk (idx : Nat) (a : String) : StreamChunk :=
  ⟨none, [⟨idx, none, some ⟨none, some a⟩⟩]⟩

/-- Following the spec's words, the logical tool call — call id, function
name, and the full arguments string — that a non-streamed response carries
directly and a streamed response must reconstruct. -/
def specLogicalToolCall (id nm args : String) : ToolCall := ⟨id, nm, args⟩

/-- The zero token oracle (a context whose token count is 0). -/
def ctZero : List Msg → Nat := fun _ => 0

/-- A default threshold configuration (the class defaults of
`ThresholdContextHistory`: `token_max = 1280000`, `slim_len = 43`). -/
def defaultThreshold : ThresholdContextHistory := ⟨1280000, 43⟩

/-- A context in which the most recent assistant message (index 2) carries a
tool call, and a user follow-up message (index 3) was appended after it —
exactly the agent-loop shape of `AgentRun._run`'s `CODE_STEP_FINAL` branch. -/
def cexMessages : List Msg :=
  [⟨ROLE_SYSTEM, "sys", none, none⟩,
   ⟨ROLE_SYSTEM, "env", none, none⟩,
   ⟨ROLE_ASSISTANT, "c", some [⟨"call_1", "get_time", "\x7b\x7d"⟩], none⟩,
   ⟨ROLE_USER, "u", none, none⟩]

/-- The `PState` holding `cexMessages` (no stores, no session). -/
def cexState : PState := ⟨"sys", "", defaultThreshold, none, [], cexMessages⟩

/-- A small agent state for exercising the stagnation guard. -/
def stagState : PState :=
  ⟨"sys", "", defaultThreshold, none, [],
   [⟨ROLE_SYSTEM, "sys", none, none⟩, ⟨ROLE_SYSTEM, "env", none, none⟩]⟩

/-- A completion oracle answering every context with one un-dispatchable
step. -/
def stagChatO : List Msg → Option (RspMsg × List Json) :=
  fun _ => some (⟨none⟩, [Json.str "thought"])

/-- A step executor whose result code is none of the three dispatch codes. -/
def stagStepCall : Nat → Json → StepRet := fun _ _ => .noCode

/-! # Theorems -/

/-- **C3** — Threshold monotonicity: `is_exceeded` returns `true` whenever
`len(messages) ≥ max(27, slim_len)`, regardless of the token count; it
independently returns `true` whenever
`count_tokens(str(messages)) / token_max ≥ 0.8` (stated in exact arithmetic
as `10·tokens ≥ 8·token_max`), regardless of the length; and it returns
`false` only when both conditions fail.  `token_max` is positive, as the
Python division would raise `ZeroDivisionError` otherwise. -/
theorem threshold_monotonicity (t : ThresholdContextHistory)
    (countTokens : List Msg → Nat) (messages : List Msg)
    (htm : 0 < t.token_max) :
    (messages.length ≥ max 27 t.slim_len → is_exceeded t countTokens messages = true) ∧
    (10 * countTokens messages ≥ 8 * t.token_max →
      is_exceeded t countTokens messages = true) ∧
    (messages.length < max 27 t.slim_len → 10 * countTokens messages < 8 * t.token_max →
      is_exceeded t countTokens messages = false) := by
  unfold is_exceeded exceed_msg_len exceed_ratio SLIM_MIN_LEN
  refine ⟨fun h => ?_, fun h => ?_, fun h1 h2 => ?_⟩ <;> simp_all <;> omega

/-- Witness for C3 at a concrete input: 43 messages with token count 0 exceed
the default thresholds. -/
theorem threshold_monotonicity_witness :
    0 < defaultThreshold.token_max ∧
    is_exceeded defaultThreshold ctZero
      (List.replicate 43 ⟨ROLE_USER, "x", none, none⟩) = true :=
  ⟨by norm_num [defaultThreshold],
   (threshold_monotonicity defaultThreshold ctZero _
      (by norm_num [defaultThreshold])).1 (by simp [defaultThreshold])⟩

/-- **C10** — None-content appends are no-ops: `add_user_message(None)`,
`add_assistant_message(None, tool_calls)` and `add_tool_message(None)` return
without appending, without running the history/archival hook chain, and leave
the state exactly unchanged. -/
theorem none_content_appends_noop (ct : List Msg → Nat) (now : String)
    (st : PState) (tcs : Option (List ToolCall)) :
    addUserMessage ct now st none = st ∧
    addAssistantMessage ct now st none tcs = st ∧
    addToolMessage ct now st none = st :=
  ⟨rfl, rfl, rfl⟩

/-- The retry loop performs no attempts once the attempt index exceeds the
budget. -/
theorem chatAux_stop {α : Type} (f : Nat → AttemptOutcome α) :
    ∀ fuel i rt ei, rt < i →
      chatAux f fuel i rt ei = (.error "chat to LLM is failed", 0) := by
  intro fuel
  cases fuel with
  | zero => intro i rt ei _; rfl
  | succ n =>
    intro i rt ei h
    simp only [chatAux]
    rw [if_pos (by omega)]

/-- The retry loop performs at most `fuel` attempts. -/
theorem chatAux_attempts_le {α : Type} (f : Nat → AttemptOutcome α) :
    ∀ fuel i rt ei, (chatAux f fuel i rt ei).2 ≤ fuel := by
  intro fuel
  induction fuel with
  | zero => intro i rt ei; simp [chatAux]
  | succ n ih =>
    intro i rt ei
    simp only [chatAux]
    split
    · simp
    · cases hf : f i with
      | ok r => simp
      | err e =>
        simp only []
        have := ih (i + 1)
          (if extendsBudget e ∧ i > 7 then rt + 1 else rt)
          (if e = ChatErr.internalServer then ei + 1 else ei)
        omega

/-- When every attempt fails with a rate limit and the budget stays below the
extension threshold of 7, the loop performs exactly `rt + 1 - i` further
attempts and fails. -/
theorem chatAux_rateLimit_small {α : Type} (f : Nat → AttemptOutcome α)
    (h : ∀ j, f j = .err .rateLimit) :
    ∀ fuel i rt ei, rt ≤ 7 → i ≤ rt → rt - i < fuel →
      chatAux f fuel i rt ei = (.error "chat to LLM is failed", rt + 1 - i) := by
  intro fuel
  induction fuel with
  | zero => intro i rt ei _ _ hf; omega
  | succ n ih =>
    intro i rt ei h7 hir hf
    simp only [chatAux]
    rw [if_neg (by omega), h i]
    simp only [extendsBudget]
    rw [if_neg (by simp; omega)]
    rw [if_neg (by simp)]
    by_cases hie : i = rt
    · subst hie
      rw [chatAux_stop f n (i + 1) i ei (by omega)]
      simp
    · rw [ih (i + 1) rt ei h7 (by omega) (by omega)]
      simp only []
      congr 1
      omega

/-- **C4** — Retry termination: when every underlying call raises a
rate-limit error, `chat` with a retry budget of 2 performs exactly
`2 + 1 = 3` underlying attempts and then fails with
`"chat to LLM is failed"`; and for any outcome oracle and any budget the
outer loop performs at most 100 attempts (`for i in range(100)`), even when
rate-limit or server errors extend `retry_times`. -/
theorem retry_termination {α : Type} (f : Nat → AttemptOutcome α)
    (h : ∀ i, f i = .err .rateLimit) :
    chat f 2 = (.error "chat to LLM is failed", 3) ∧
    (∀ (g : Nat → AttemptOutcome α) (rt : Nat), (chat g rt).2 ≤ 100) := by
  constructor
  · have := chatAux_rateLimit_small f h 100 0 2 0 (by omega) (by omega) (by omega)
    simpa [chat] using this
  · intro g rt
    exact chatAux_attempts_le g 100 0 rt 0

/-- Witness for C4 at a concrete oracle: the constantly-rate-limited endpoint
with budget 2 fails after exactly 3 attempts. -/
theorem retry_termination_witness :
    (∀ i : Nat,
      (fun _ : Nat => AttemptOutcome.err (α := String) ChatErr.rateLimit) i =
        .err .rateLimit) ∧
    chat (fun _ : Nat => AttemptOutcome.err (α := String) ChatErr.rateLimit) 2 =
      (.error "chat to LLM is failed", 3) :=
  ⟨fun _ => rfl, (retry_termination _ (fun _ => rfl)).1⟩

/-- **C5** — Empty-content placeholder rule, evaluated at the failing input:
the spec requires both paths to substitute the placeholder action marker when
content is empty but a tool call is present; the streaming path does
(`fix_response_content`'s result is assigned), but the non-streaming
`call_llm_model` discards that result and raises
`TypeError("null of response")` / `TypeError("no response")` on the original
empty content.  When content is empty and there are no tool calls, both paths
raise, as claimed. -/
theorem empty_content_placeholder_divergence :
    call_llm_model ⟨ROLE_ASSISTANT, some "", [⟨"call_1", "get_time", "\x7b\x7d"⟩]⟩
        = .error "null of response" ∧
    call_llm_model ⟨ROLE_ASSISTANT, none, [⟨"call_1", "get_time", "\x7b\x7d"⟩]⟩
        = .error "no response" ∧
    call_llm_model_by_stream [nameChunk 0 "call_1" "get_time", argChunk 0 "\x7b\x7d"]
        = .ok (⟨ROLE_ASSISTANT, some "", [⟨"call_1", "get_time", "\x7b\x7d"⟩]⟩,
               some TOPSAILAI_STEP_ACTION) ∧
    fix_response_content ⟨ROLE_ASSISTANT, some "", [⟨"call_1", "get_time", "\x7b\x7d"⟩]⟩
        (some "") = some TOPSAILAI_STEP_ACTION ∧
    call_llm_model ⟨ROLE_ASSISTANT, some "", []⟩ = .error "null of response" ∧
    call_llm_model_by_stream [] = .error "null of response" :=
  ⟨rfl, rfl, rfl, rfl, rfl, rfl⟩

/-- Folding one argument-fragment chunk appends its text to the accumulated
arguments of the call at that index. -/
theorem processChunk_argChunk (idx : Nat) (acc : ToolCallAcc) (c a : String) :
    processChunk (c, [(idx, acc)]) (argChunk idx a) =
      (c, [(idx, { acc with arguments := acc.arguments ++ a })]) := by
  by_cases ha : a = ""
  · subst ha
    simp [processChunk, argChunk, applyDelta, String.append_empty]
  · simp [processChunk, argChunk, applyDelta, ha]

/-- Folding a list of argument-fragment chunks concatenates their texts, in
order, onto the accumulated arguments. -/
theorem argChunks_fold (idx : Nat) (c : String) :
    ∀ (frags : List String) (acc : ToolCallAcc),
      (frags.map (argChunk idx)).foldl processChunk (c, [(idx, acc)]) =
        (c, [(idx, { acc with arguments := frags.foldl (· ++ ·) acc.arguments })]) := by
  intro frags
  induction frags with
  | nil => intro acc; simp
  | cons a rest ih =>
    intro acc
    simp only [List.map_cons, List.foldl_cons, processChunk_argChunk]
    rw [ih]

/-- Folding a name-delivering chunk into the empty accumulator creates the
call's slot with its id and name. -/
theorem processChunk_nameChunk (idx : Nat) (id nm : String) (hnm : nm ≠ "") :
    processChunk ("", []) (nameChunk idx id nm) = ("", [(idx, ⟨id, nm, ""⟩)]) := by
  by_cases hid : id = ""
  · subst hid
    simp [processChunk, nameChunk, applyDelta, hnm]
  · simp [processChunk, nameChunk, applyDelta, hnm, hid]

/-- Materializing a one-call accumulator dict yields that call. -/
theorem materialize_singleton (idx : Nat) (acc : ToolCallAcc) :
    materializeToolCalls [(idx, acc)] = [⟨acc.id, acc.name, acc.arguments⟩] := by
  simp [materializeToolCalls, List.insertionSort, List.orderedInsert]

/-- Folding a name-delivering chunk for a fresh index appends that call's
slot after the existing one. -/
theorem processChunk_nameChunk_second (i j : Nat) (acc2 : ToolCallAcc)
    (c id nm : String) (hij : ¬j = i) (hnm : nm ≠ "") :
    processChunk (c, [(j, acc2)]) (nameChunk i id nm) =
      (c, [(j, acc2), (i, ⟨id, nm, ""⟩)]) := by
  by_cases hid : id = "" <;>
    simp [processChunk, nameChunk, applyDelta, hij, hnm, hid]

/-- Folding an argument-fragment chunk for the second of two indexed calls
appends its text there, leaving the first call untouched. -/
theorem processChunk_argChunk_second (i j : Nat) (acc1 acc2 : ToolCallAcc)
    (c a : String) (hij : ¬j = i) :
    processChunk (c, [(j, acc2), (i, acc1)]) (argChunk i a) =
      (c, [(j, acc2), (i, { acc1 with arguments := acc1.arguments ++ a })]) := by
  by_cases ha : a = "" <;>
    simp [processChunk, argChunk, applyDelta, hij, ha, String.append_empty]

/-- Materializing a two-call accumulator dict whose entries arrived in
descending index order sorts them into ascending index order. -/
theorem materialize_two_desc (i j : Nat) (acc1 acc2 : ToolCallAcc) (hij : i < j) :
    materializeToolCalls [(j, acc2), (i, acc1)] =
      [⟨acc1.id, acc1.name, acc1.arguments⟩, ⟨acc2.id, acc2.name, acc2.arguments⟩] := by
  have h1 : ¬j ≤ i := by omega
  have h2 : ¬j = i := by omega
  have h3 : ¬i = j := by omega
  simp [materializeToolCalls, List.insertionSort, List.orderedInsert, h1, h2, h3]

/-- **C6** — Streaming tool-call reconstruction equals the non-streamed
result: a stream delivering one call's name in one chunk and its arguments
split across several chunks under one index reconstructs exactly one tool
call whose arguments string is the in-order concatenation of the fragments
(and whose name is the accumulated name); a non-streamed response carrying
the same logical call passes it through unchanged; and two indices are
materialized in ascending index order even when their chunks arrive in
descending order. -/
theorem streaming_reconstruction (idx : Nat) (id nm : String)
    (frags : List String) (hnm : nm ≠ "") :
    materializeToolCalls
        (((nameChunk idx id nm :: frags.map (argChunk idx)).foldl
            processChunk ("", [])).2)
      = [specLogicalToolCall id nm (String.join frags)] ∧
    (∀ (rsp : CCMessage) (c : String),
      rsp.toolCalls = [specLogicalToolCall id nm (String.join frags)] →
      pyStrip c ≠ "" → rsp.content = some c →
      call_llm_model rsp = .ok (rsp, some c)) ∧
    (∀ (i j : Nat) (id1 nm1 a1 id2 nm2 a2 : String), i < j → nm1 ≠ "" → nm2 ≠ "" →
      materializeToolCalls
        (([nameChunk j id2 nm2, argChunk j a2, nameChunk i id1 nm1,
            argChunk i a1].foldl processChunk ("", [])).2)
        = [specLogicalToolCall id1 nm1 a1, specLogicalToolCall id2 nm2 a2]) := by
  refine ⟨?_, ?_, ?_⟩
  · rw [List.foldl_cons, processChunk_nameChunk idx id nm hnm, argChunks_fold]
    rw [materialize_singleton]
    rfl
  · intro rsp c htc hc hcon
    simp [call_llm_model, check_response_content, hcon, hc]
  · intro i j id1 nm1 a1 id2 nm2 a2 hij hnm1 hnm2
    have hji : ¬j = i := by omega
    simp only [List.foldl_cons, List.foldl_nil]
    rw [processChunk_nameChunk j id2 nm2 hnm2]
    rw [processChunk_argChunk]
    rw [processChunk_nameChunk_second i j _ "" id1 nm1 hji hnm1]
    rw [processChunk_argChunk_second i j _ _ "" a1 hji]
    rw [materialize_two_desc i j _ _ hij]
    rfl

/-- Witness for C6 at a concrete stream: one call under index 0, name in one
chunk, arguments split across two fragments. -/
theorem streaming_reconstruction_witness :
    ("get_time" : String) ≠ "" ∧
    materializeToolCalls
        (((nameChunk 0 "call_1" "get_time" ::
            ["\x7b\"a\"", ": 1\x7d"].map (argChunk 0)).foldl processChunk ("", [])).2)
      = [specLogicalToolCall "call_1" "get_time"
          (String.join ["\x7b\"a\"", ": 1\x7d"])] :=
  ⟨by decide, (streaming_reconstruction 0 "call_1" "get_time" _ (by decide)).1⟩

/-- `linkOneMsg` can rewrite a message's content but never its role, its
`tool_calls`, or its `tool_call_id`. -/
theorem linkOneMsg_frame (sid : Option String) (ms : Nat) (store : Store) (m : Msg) :
    ((linkOneMsg sid ms store m).2.1).role = m.role ∧
    ((linkOneMsg sid ms store m).2.1).toolCalls = m.toolCalls ∧
    ((linkOneMsg sid ms store m).2.1).toolCallId = m.toolCallId := by
  unfold linkOneMsg
  dsimp only
  repeat' split
  all_goals exact ⟨rfl, rfl, rfl⟩

/-- `linkMessagesAux` preserves the length of the message list. -/
theorem linkMessagesAux_length (sid : Option String) (ms eS eE : Nat) :
    ∀ (l : List Msg) (store : Store) (i : Nat) (raised : Bool),
      ((linkMessagesAux sid ms eS eE store i raised l).2).length = l.length := by
  intro l
  induction l with
  | nil => intro store i raised; rfl
  | cons m rest ih =>
    intro store i raised
    simp only [linkMessagesAux]
    split <;> simp [ih]

/-- `linkMessagesAux` leaves every position outside the index window
untouched. -/
theorem linkMessagesAux_outside (sid : Option String) (ms eS eE : Nat) :
    ∀ (l : List Msg) (store : Store) (i : Nat) (raised : Bool) (j : Nat),
      (i + j < eS ∨ eE ≤ i + j) →
      ((linkMessagesAux sid ms eS eE store i raised l).2).get? j = l.get? j := by
  intro l
  induction l with
  | nil => intro store i raised j _; rfl
  | cons m rest ih =>
    intro store i raised j hj
    by_cases hwin : eS ≤ i ∧ i < eE ∧ ¬raised
    · simp only [linkMessagesAux, if_pos hwin]
      cases j with
      | zero => omega
      | succ j =>
        simp only [List.get?_cons_succ]
        exact ih ((linkOneMsg sid ms store m).1) (i + 1)
          ((linkOneMsg sid ms store m).2.2) j (by omega)
    · simp only [linkMessagesAux, if_neg hwin]
      cases j with
      | zero => rfl
      | succ j =>
        simp only [List.get?_cons_succ]
        exact ih store (i + 1) raised j (by omega)

/-- `linkMessagesAux` modifies at most the content of any message. -/
theorem linkMessagesAux_pointwise (sid : Option String) (ms eS eE : Nat) :
    ∀ (l : List Msg) (store : Store) (i : Nat) (raised : Bool) (j : Nat) (m m' : Msg),
      l.get? j = some m →
      ((linkMessagesAux sid ms eS eE store i raised l).2).get? j = some m' →
      m'.role = m.role ∧ m'.toolCalls = m.toolCalls ∧ m'.toolCallId = m.toolCallId := by
  intro l
  induction l with
  | nil =>
    intro store i raised j m m' h _
    exact absurd h (by simp)
  | cons a rest ih =>
    intro store i raised j m m' hl hr
    by_cases hwin : eS ≤ i ∧ i < eE ∧ ¬raised
    · simp only [linkMessagesAux, if_pos hwin] at hr
      cases j with
      | zero =>
        simp only [List.get?_cons_zero, Option.some.injEq] at hl hr
        subst hl
        subst hr
        exact linkOneMsg_frame sid ms store a
      | succ j =>
        simp only [List.get?_cons_succ] at hl hr
        exact ih ((linkOneMsg sid ms store a).1) (i + 1)
          ((linkOneMsg sid ms store a).2.2) j m m' hl hr
    · simp only [linkMessagesAux, if_neg hwin] at hr
      cases j with
      | zero =>
        simp only [List.get?_cons_zero, Option.some.injEq] at hl hr
        subst hl
        subst hr
        exact ⟨rfl, rfl, rfl⟩
      | succ j =>
        simp only [List.get?_cons_succ] at hl hr
        exact ih store (i + 1) raised j m m' hl hr

/-- The frame of one `link_messages` call at the source defaults, for a
message list of any length: length preserved, `messages[0:3]` and the last 11
positions untouched, and at most the content of any message modified. -/
theorem link_messages_frame (store : Store) (sid : Option String) (msgs : List Msg) :
    ((link_messages store sid msgs 3 (-11) 1024).2).length = msgs.length ∧
    (∀ i, i < 3 → ((link_messages store sid msgs 3 (-11) 1024).2).get? i = msgs.get? i) ∧
    (∀ i, msgs.length - 11 ≤ i →
      ((link_messages store sid msgs 3 (-11) 1024).2).get? i = msgs.get? i) ∧
    (∀ i m m', msgs.get? i = some m →
      ((link_messages store sid msgs 3 (-11) 1024).2).get? i = some m' →
      m'.role = m.role ∧ m'.toolCalls = m.toolCalls ∧ m'.toolCallId = m.toolCallId) := by
  have heS : sliceBound msgs.length 3 = min 3 msgs.length := by
    simp [sliceBound]
  have heE : sliceBound msgs.length (-11) = msgs.length - 11 := by
    simp only [sliceBound, if_pos (by omega : (-11 : Int) < 0)]
    omega
  unfold link_messages
  rw [heS, heE]
  refine ⟨linkMessagesAux_length sid 1024 _ _ msgs store 0 false, ?_, ?_, ?_⟩
  · intro i hi
    by_cases hlen : i < msgs.length
    · exact linkMessagesAux_outside sid 1024 _ _ msgs store 0 false i (by omega)
    · have h1 : msgs.get? i = none := List.get?_eq_none.mpr (by omega)
      have h2 : ((linkMessagesAux sid 1024 (min 3 msgs.length) (msgs.length - 11)
          store 0 false msgs).2).get? i = none := by
        apply List.get?_eq_none.mpr
        rw [linkMessagesAux_length]
        omega
      rw [h1, h2]
  · intro i hi
    exact linkMessagesAux_outside sid 1024 _ _ msgs store 0 false i (by omega)
  · intro i m m' hm hm'
    exact linkMessagesAux_pointwise sid 1024 _ _ msgs store 0 false i m m' hm hm'

/-- **C2** — Archival frame property: for every message list of length
`N > 14`, one `link_messages` call with the defaults (`index_start=3`,
`index_end=-11`, `max_size=1024`) preserves the list length and element
order (nothing added or removed), leaves `messages[0:3]` and
`messages[N-11:N]` entirely unchanged, and modifies at most the `content`
field of the messages in the window `[3, N-11)`. -/
theorem archival_frame (store : Store) (sid : Option String) (msgs : List Msg)
    (hN : msgs.length > 14) :
    ((link_messages store sid msgs 3 (-11) 1024).2).length = msgs.length ∧
    (∀ i, i < 3 → ((link_messages store sid msgs 3 (-11) 1024).2).get? i = msgs.get? i) ∧
    (∀ i, msgs.length - 11 ≤ i →
      ((link_messages store sid msgs 3 (-11) 1024).2).get? i = msgs.get? i) ∧
    (∀ i m m', msgs.get? i = some m →
      ((link_messages store sid msgs 3 (-11) 1024).2).get? i = some m' →
      m'.role = m.role ∧ m'.toolCalls = m.toolCalls ∧ m'.toolCallId = m.toolCallId) :=
  link_messages_frame store sid msgs

/-- Witness for C2 at a concrete input: a 15-message list keeps its length
through archival. -/
theorem archival_frame_witness :
    (List.replicate 15 (⟨ROLE_USER, "u", none, none⟩ : Msg)).length > 14 ∧
    ((link_messages ⟨[], []⟩ none
        (List.replicate 15 ⟨ROLE_USER, "u", none, none⟩) 3 (-11) 1024).2).length
      = (List.replicate 15 (⟨ROLE_USER, "u", none, none⟩ : Msg)).length :=
  ⟨by simp, (archival_frame ⟨[], []⟩ none _ (by simp)).1⟩

/-- With an empty window (`eE = 0`) `linkMessagesAux` is the identity on the
message list. -/
theorem linkMessagesAux_eE_zero (sid : Option String) (ms eS : Nat) :
    ∀ (l : List Msg) (store : Store) (i : Nat) (raised : Bool),
      (linkMessagesAux sid ms eS 0 store i raised l).2 = l := by
  intro l
  induction l with
  | nil => intro store i raised; rfl
  | cons m rest ih =>
    intro store i raised
    have hwin : ¬(eS ≤ i ∧ i < 0 ∧ ¬raised = true) := by
      rintro ⟨_, h2, _⟩; omega
    simp only [linkMessagesAux, if_neg hwin]
    rw [ih]

/-- `link_messages` at the defaults leaves a list of at most 11 messages
unchanged. -/
theorem link_messages_short (store : Store) (sid : Option String)
    (msgs : List Msg) (h : msgs.length ≤ 11) :
    (link_messages store sid msgs 3 (-11) 1024).2 = msgs := by
  have heE : sliceBound msgs.length (-11) = 0 := by
    simp only [sliceBound, if_pos (by omega : (-11 : Int) < 0)]
    omega
  unfold link_messages
  rw [heE]
  exact linkMessagesAux_eE_zero sid 1024 _ msgs store 0 false

/-- The store fan-out of the archival hook leaves a list of at most 11
messages unchanged. -/
theorem linkAllStoresGo_short (sid : Option String) :
    ∀ (stores : List Store) (msgs : List Msg), msgs.length ≤ 11 →
      (linkAllStoresGo sid stores msgs).2 = msgs := by
  intro stores
  induction stores with
  | nil => intro msgs _; rfl
  | cons s rest ih =>
    intro msgs h
    simp only [linkAllStoresGo]
    rw [link_messages_short s sid msgs h, ih msgs h]

/-- The store fan-out of the archival hook preserves the length, the first
three positions, and the last 11 positions of the message list. -/
theorem linkAllStoresGo_frame (sid : Option String) :
    ∀ (stores : List Store) (msgs : List Msg),
      (linkAllStoresGo sid stores msgs).2.length = msgs.length ∧
      (∀ i, i < 3 → (linkAllStoresGo sid stores msgs).2.get? i = msgs.get? i) ∧
      (∀ i, msgs.length - 11 ≤ i →
        (linkAllStoresGo sid stores msgs).2.get? i = msgs.get? i) := by
  intro stores
  induction stores with
  | nil => intro msgs; exact ⟨rfl, fun _ _ => rfl, fun _ _ => rfl⟩
  | cons s rest ih =>
    intro msgs
    obtain ⟨hl, h3, h11, _⟩ := link_messages_frame s sid msgs
    obtain ⟨ihl, ih3, ih11⟩ := ih ((link_messages s sid msgs 3 (-11) 1024).2)
    refine ⟨?_, ?_, ?_⟩
    · simp only [linkAllStoresGo]
      rw [ihl, hl]
    · intro i hi
      simp only [linkAllStoresGo]
      rw [ih3 i hi, h3 i hi]
    · intro i hi
      simp only [linkAllStoresGo]
      rw [ih11 i (by omega), h11 i hi]

/-- The hook chain never changes the configuration fields of the state. -/
theorem callHooks_fields (ct : List Msg → Nat) (now : String) (st : PState) :
    (callHooksCtxHistory ct now st).system_prompt = st.system_prompt ∧
    (callHooksCtxHistory ct now st).tool_prompt = st.tool_prompt ∧
    (callHooksCtxHistory ct now st).threshold = st.threshold ∧
    (callHooksCtxHistory ct now st).sessionId = st.sessionId := by
  unfold callHooksCtxHistory linkAllStores
  dsimp only
  repeat' split
  all_goals exact ⟨rfl, rfl, rfl, rfl⟩

/-- The hook chain preserves the length, the first three positions, and the
last 11 positions of the message list. -/
theorem callHooks_msgs (ct : List Msg → Nat) (now : String) (st : PState) :
    (callHooksCtxHistory ct now st).messages.length = st.messages.length ∧
    (∀ i, i < 3 →
      (callHooksCtxHistory ct now st).messages.get? i = st.messages.get? i) ∧
    (∀ i, st.messages.length - 11 ≤ i →
      (callHooksCtxHistory ct now st).messages.get? i = st.messages.get? i) := by
  unfold callHooksCtxHistory linkAllStores
  dsimp only
  repeat' split
  all_goals
    first
      | exact ⟨rfl, fun _ _ => rfl, fun _ _ => rfl⟩
      | exact linkAllStoresGo_frame _ _ _

/-- The hook chain leaves a list of at most 11 messages unchanged. -/
theorem callHooks_msgs_short (ct : List Msg → Nat) (now : String) (st : PState)
    (h : st.messages.length ≤ 11) :
    (callHooksCtxHistory ct now st).messages = st.messages := by
  unfold callHooksCtxHistory linkAllStores
  dsimp only
  repeat' split
  all_goals
    first
      | rfl
      | exact linkAllStoresGo_short _ _ _ h

/-- `append_message` preserves the configuration fields. -/
theorem appendMessage_fields (ct : List Msg → Nat) (now : String) (st : PState)
    (m : Msg) :
    (appendMessage ct now st m).system_prompt = st.system_prompt ∧
    (appendMessage ct now st m).tool_prompt = st.tool_prompt := by
  obtain ⟨h1, h2, _, _⟩ :=
    callHooks_fields ct now { st with messages := st.messages ++ [m] }
  exact ⟨h1, h2⟩

/-- `append_message` grows the message list by exactly one. -/
theorem appendMessage_length (ct : List Msg → Nat) (now : String) (st : PState)
    (m : Msg) :
    (appendMessage ct now st m).messages.length = st.messages.length + 1 := by
  obtain ⟨hl, _, _⟩ := callHooks_msgs ct now { st with messages := st.messages ++ [m] }
  simpa using hl

/-- `append_message` preserves the first three existing positions. -/
theorem appendMessage_prefix (ct : List Msg → Nat) (now : String) (st : PState)
    (m : Msg) (i : Nat) (h3 : i < 3) (hlen : i < st.messages.length) :
    (appendMessage ct now st m).messages.get? i = st.messages.get? i := by
  obtain ⟨_, hpre, _⟩ := callHooks_msgs ct now { st with messages := st.messages ++ [m] }
  rw [appendMessage, hpre i h3]
  exact List.get?_append hlen

/-- `append_message` puts the new message at the end. -/
theorem appendMessage_last (ct : List Msg → Nat) (now : String) (st : PState)
    (m : Msg) :
    (appendMessage ct now st m).messages.get? st.messages.length = some m := by
  obtain ⟨_, _, hlast⟩ := callHooks_msgs ct now { st with messages := st.messages ++ [m] }
  rw [appendMessage, hlast st.messages.length (by simp)]
  simp [List.get?_concat_length]

/-- `append_message` on a short list appends exactly. -/
theorem appendMessage_short (ct : List Msg → Nat) (now : String) (st : PState)
    (m : Msg) (h : st.messages.length ≤ 10) :
    (appendMessage ct now st m).messages = st.messages ++ [m] := by
  have := callHooks_msgs_short ct now { st with messages := st.messages ++ [m] }
    (by simp; omega)
  simpa [appendMessage] using this

/-- `reset_messages` rebuilds exactly the 2-or-3-message header and preserves
the configuration fields. -/
theorem resetMessages_spec (ct : List Msg → Nat) (now env : String) (st : PState) :
    (resetMessages ct now env st).messages =
      ⟨ROLE_SYSTEM, st.system_prompt, none, none⟩ ::
      ⟨ROLE_SYSTEM, env, none, none⟩ ::
      (if st.tool_prompt ≠ "" then [⟨ROLE_SYSTEM, st.tool_prompt, none, none⟩] else []) ∧
    (resetMessages ct now env st).system_prompt = st.system_prompt ∧
    (resetMessages ct now env st).tool_prompt = st.tool_prompt := by
  have h1 := appendMessage_short ct now { st with messages := [] }
    ⟨ROLE_SYSTEM, st.system_prompt, none, none⟩ (by simp)
  have f1 := appendMessage_fields ct now { st with messages := [] }
    ⟨ROLE_SYSTEM, st.system_prompt, none, none⟩
  set st1 := appendMessage ct now { st with messages := [] }
    ⟨ROLE_SYSTEM, st.system_prompt, none, none⟩ with hst1
  have h2 := appendMessage_short ct now st1 ⟨ROLE_SYSTEM, env, none, none⟩
    (by rw [h1]; simp)
  have f2 := appendMessage_fields ct now st1 ⟨ROLE_SYSTEM, env, none, none⟩
  set st2 := appendMessage ct now st1 ⟨ROLE_SYSTEM, env, none, none⟩ with hst2
  have hm2 : st2.messages =
      [⟨ROLE_SYSTEM, st.system_prompt, none, none⟩, ⟨ROLE_SYSTEM, env, none, none⟩] := by
    rw [h2, h1]; rfl
  by_cases htp : st.tool_prompt ≠ ""
  · have h3 := appendMessage_short ct now st2
      ⟨ROLE_SYSTEM, st.tool_prompt, none, none⟩ (by rw [hm2]; simp)
    have f3 := appendMessage_fields ct now st2
      ⟨ROLE_SYSTEM, st.tool_prompt, none, none⟩
    refine ⟨?_, ?_, ?_⟩
    · show (resetMessages ct now env st).messages = _
      unfold resetMessages
      rw [if_pos htp, if_pos htp]
      rw [← hst1, ← hst2, h3, hm2]
      rfl
    · unfold resetMessages
      rw [if_pos htp, ← hst1, ← hst2, f3.1, f2.1, f1.1]
    · unfold resetMessages
      rw [if_pos htp, ← hst1, ← hst2, f3.2, f2.2, f1.2]
  · refine ⟨?_, ?_, ?_⟩
    · unfold resetMessages
      rw [if_neg htp, if_neg htp, ← hst1, ← hst2, hm2]
    · unfold resetMessages
      rw [if_neg htp, ← hst1, ← hst2, f2.1, f1.1]
    · unfold resetMessages
      rw [if_neg htp, ← hst1, ← hst2, f2.2, f1.2]

/-- A position holding a value is inside the list. -/
theorem get?_some_lt {α : Type} {l : List α} {n : Nat} {a : α}
    (h : l.get? n = some a) : n < l.length := by
  by_contra hc
  rw [List.get?_eq_none.mpr (by omega)] at h
  cases h

/-- `headerInvariant` transfers along any state change that preserves the
prompts and the first three message positions. -/
theorem headerInvariant_transfer (st st' : PState)
    (hsp : st'.system_prompt = st.system_prompt)
    (htp : st'.tool_prompt = st.tool_prompt)
    (h3 : ∀ i, i < 3 → i < st.messages.length →
      st'.messages.get? i = st.messages.get? i)
    (h : headerInvariant st = true) : headerInvariant st' = true := by
  simp only [headerInvariant, Bool.and_eq_true] at h ⊢
  obtain ⟨⟨h0, h1⟩, h2⟩ := h
  refine ⟨⟨?_, ?_⟩, ?_⟩
  · cases e0 : st.messages.get? 0 with
    | none => rw [e0] at h0; simp at h0
    | some m0 =>
      rw [e0] at h0
      rw [h3 0 (by omega) (get?_some_lt e0), e0, hsp]
      exact h0
  · cases e1 : st.messages.get? 1 with
    | none => rw [e1] at h1; simp at h1
    | some m1 =>
      rw [e1] at h1
      rw [h3 1 (by omega) (get?_some_lt e1), e1]
      exact h1
  · rw [htp]
    by_cases htpe : st.tool_prompt ≠ ""
    · rw [if_pos htpe] at h2 ⊢
      cases e2 : st.messages.get? 2 with
      | none => rw [e2] at h2; simp at h2
      | some m2 =>
        rw [e2] at h2
        rw [h3 2 (by omega) (get?_some_lt e2), e2]
        exact h2
    · rw [if_neg htpe]

/-- `reset_messages` establishes the header invariant from any state. -/
theorem header_reset (ct : List Msg → Nat) (now env : String) (st : PState) :
    headerInvariant (resetMessages ct now env st) = true := by
  obtain ⟨hm, hsp, htp⟩ := resetMessages_spec ct now env st
  simp only [headerInvariant, hm, hsp, htp, Bool.and_eq_true]
  refine ⟨⟨?_, ?_⟩, ?_⟩
  · simp
  · simp
  · by_cases htpe : st.tool_prompt ≠ "" <;> simp [htpe]

/-- `append_message` preserves the header invariant. -/
theorem header_append (ct : List Msg → Nat) (now : String) (st : PState)
    (m : Msg) (h : headerInvariant st = true) :
    headerInvariant (appendMessage ct now st m) = true :=
  headerInvariant_transfer st (appendMessage ct now st m)
    (appendMessage_fields ct now st m).1 (appendMessage_fields ct now st m).2
    (fun i h3 hlen => appendMessage_prefix ct now st m i h3 hlen) h

/-- `update_message_for_env` preserves the header invariant. -/
theorem header_update_env (env : String) (st : PState)
    (h : headerInvariant st = true) :
    headerInvariant (updateMessageForEnv env st) = true := by
  simp only [headerInvariant, updateMessageForEnv, Bool.and_eq_true] at h ⊢
  obtain ⟨⟨h0, h1⟩, h2⟩ := h
  refine ⟨⟨?_, ?_⟩, ?_⟩
  · rw [List.get?_set_ne _ _ (by omega)]
    exact h0
  · cases e1 : st.messages.get? 1 with
    | none => rw [e1] at h1; simp at h1
    | some m1 =>
      rw [List.get?_set_eq, e1]
      simp [ROLE_SYSTEM]
  · by_cases htpe : st.tool_prompt ≠ ""
    · rw [if_pos htpe] at h2 ⊢
      rw [List.get?_set_ne _ _ (by omega)]
      exact h2
    · rw [if_neg htpe]

/-- The archival pass (`link_messages` over every store) preserves the header
invariant. -/
theorem header_linkAll (st : PState) (h : headerInvariant st = true) :
    headerInvariant (linkAllStores st) = true :=
  headerInvariant_transfer st (linkAllStores st) rfl rfl
    (fun i h3 _ =>
      (linkAllStoresGo_frame st.sessionId st.stores st.messages).2.1 i h3) h

/-- Every `PromptBase` operation preserves the header invariant. -/
theorem header_step (ct : List Msg → Nat) (op : POp) (st : PState)
    (h : headerInvariant st = true) :
    headerInvariant (applyOp ct st op) = true := by
  cases op with
  | reset now env => exact header_reset ct now env st
  | newSess now env c =>
    cases c with
    | none => exact header_reset ct now env st
    | some cj =>
      exact header_append ct now (resetMessages ct now env st) _
        (header_reset ct now env st)
  | addUser now c =>
    cases c with
    | none => exact h
    | some cj => exact header_append ct now st _ h
  | addAssistant now c tcs =>
    cases c with
    | none => exact h
    | some cj => exact header_append ct now st _ h
  | addTool now c =>
    cases c with
    | none => exact h
    | some cj =>
      simp only [applyOp, addToolMessage]
      split
      · exact header_append ct now st _ h
      · exact header_append ct now st _ h
  | updateEnv env => exact header_update_env env st h
  | linkMsgs => exact header_linkAll st h

/-- **C1** — Header invariant: for every `PromptBase` built with a non-empty
system prompt, after any sequence of `reset_messages`, `new_session`,
`add_user_message`, `add_assistant_message` and `add_tool_message` calls —
with the session-recording and archival hook chain (including `link_messages`)
firing inside each append, and `update_message_for_env` and direct archival
allowed at any point — `messages[0]` is a system-role message holding the
system prompt, `messages[1]` is a system-role message (the environment
prompt), and when the tool prompt is non-empty `messages[2]` is a system-role
message holding it; no operation removes or reorders these leading
messages. -/
theorem header_invariant_all (ct : List Msg → Nat) (now env sp tp : String)
    (thr : ThresholdContextHistory) (sid : Option String) (stores : List Store)
    (ops : List POp) (hsp : sp ≠ "") :
    headerInvariant
      (applyOps ct (mkPromptBase ct now env sp tp thr sid stores) ops) = true := by
  have h0 : headerInvariant (mkPromptBase ct now env sp tp thr sid stores) = true :=
    header_reset ct now env _
  unfold applyOps
  revert h0
  generalize mkPromptBase ct now env sp tp thr sid stores = st
  induction ops generalizing st with
  | nil => intro h; exact h
  | cons op rest ih =>
    intro h
    exact ih _ (header_step ct op st h)

/-- Witness for C1 at a concrete instance: a prompt base with a tool prompt,
driven through appends of all roles, an environment refresh, archival, and a
session rollover. -/
theorem header_invariant_all_witness :
    ("sys" : String) ≠ "" ∧
    headerInvariant (applyOps ctZero
      (mkPromptBase ctZero "t0" "env0" "sys" "tools" defaultThreshold none [])
      [.addUser "t1" (some (Json.str "hi")),
       .addAssistant "t2" (some (Json.str "ok")) none,
       .addTool "t3" (some (Json.str "obs")),
       .updateEnv "env1",
       .linkMsgs,
       .newSess "t4" "env2" (some (Json.str "task"))]) = true :=
  ⟨by decide,
   header_invariant_all ctZero "t0" "env0" "sys" "tools" defaultThreshold none [] _
     (by decide)⟩

/-- **C7** — Stagnation guard: when one completion turn's dispatched steps
append zero messages after the assistant message was recorded (the context
length equals the `ctx_count` snapshot taken before dispatch), `AgentRun._run`
returns `None` immediately, issuing no further completion call in that
invocation (exactly the one call of this turn is counted). -/
theorem stagnation_guard (ct : List Msg → Nat) (now env : String)
    (chatO : List Msg → Option (RspMsg × List Json))
    (stepCall : Nat → Json → StepRet) (fuel : Nat) (st : PState)
    (rsp : RspMsg) (steps : List Json) (st2 : PState)
    (hchat : chatO st.messages = some (rsp, steps))
    (hne : steps ≠ [])
    (hdisp : dispatchSteps ct now stepCall
        (addAssistantMessage ct now st (some (Json.arr steps)) rsp.toolCalls) steps 0
        = .cont st2)
    (hlen : st2.messages.length =
      (addAssistantMessage ct now st (some (Json.arr steps)) rsp.toolCalls).messages.length) :
    agentRunAux ct now env chatO stepCall (fuel + 1) st = (none, 1) := by
  have hie : steps.isEmpty = false := by
    cases steps with
    | nil => exact absurd rfl hne
    | cons a l => rfl
  simp only [agentRunAux, hchat, hie, if_false]
  rw [hdisp]
  simp only []
  rw [if_pos hlen]
  simp

/-- Witness for C7 at a concrete run: a turn producing one un-dispatchable
step returns `None` after a single completion call. -/
theorem stagnation_guard_witness :
    stagChatO stagState.messages = some (⟨none⟩, [Json.str "thought"]) ∧
    agentRunAux ctZero "t" "env" stagChatO stagStepCall 1 stagState = (none, 1) :=
  ⟨rfl,
   stagnation_guard ctZero "t" "env" stagChatO stagStepCall 0 stagState ⟨none⟩
     [Json.str "thought"] _ rfl (by simp) rfl rfl⟩

/-- **C8 (counterexample)** — In the agent-loop shape the claim itself cites —
a user follow-up message appended between the assistant message carrying
`tool_calls` and the tool message — `add_tool_message` does *not* resolve the
most recent assistant message's first tool-call id (`"call_1"`): it reads only
`messages[-1]`, finds no `tool_calls` there, and appends a *user*-role message
with a null `tool_call_id` instead of a tool-role message carrying
`"call_1"`. -/
theorem tool_call_id_counterexample :
    cexMessages.length = 4 ∧
    cexMessages.get? 2 = some ⟨ROLE_ASSISTANT, "c",
      some [⟨"call_1", "get_time", "\x7b\x7d"⟩], none⟩ ∧
    cexMessages.get? 3 = some ⟨ROLE_USER, "u", none, none⟩ ∧
    (addToolMessage ctZero "t" cexState (some (Json.str "obs"))).messages.getLast?
      = some ⟨ROLE_USER, "obs", none, some none⟩ ∧
    (addToolMessage ctZero "t" cexState (some (Json.str "obs"))).messages.getLast?
      ≠ some ⟨ROLE_TOOL, "obs", none, some (some "call_1")⟩ := by
  refine ⟨rfl, rfl, rfl, rfl, ?_⟩
  decide

/-- **C8 (amended)** — Tool-message `tool_call_id` resolution: for every
non-empty context, `add_tool_message(content)` with non-`None` content appends
one message at the end; it is a tool-role message whose `tool_call_id` is the
id of the first tool call of the *last* message when that last message carries
a non-empty `tool_calls` list with a truthy first id, and otherwise (in
particular in the agent loop whenever a user follow-up message was appended
between the assistant message and the tool message) it degrades to a
user-role message with a null `tool_call_id`. -/
theorem tool_call_id_resolution (ct : List Msg → Nat) (now : String)
    (st : PState) (c : Json) (hne : st.messages ≠ []) :
    (addToolMessage ct now st (some c)).messages.length = st.messages.length + 1 ∧
    (addToolMessage ct now st (some c)).messages.get? st.messages.length =
      some (match st.messages.getLast? with
            | some last =>
              match last.toolCalls with
              | some (tc :: _) =>
                if tc.id ≠ "" then
                  (⟨ROLE_TOOL, to_json_str c, none, some (some tc.id)⟩ : Msg)
                else ⟨ROLE_USER, to_json_str c, none, some none⟩
              | _ => ⟨ROLE_USER, to_json_str c, none, some none⟩
            | none => ⟨ROLE_USER, to_json_str c, none, some none⟩) := by
  cases hlast : st.messages.getLast? with
  | none =>
    exact absurd (List.getLast?_eq_none_iff.mp hlast) hne
  | some last =>
    cases htc : last.toolCalls with
    | none =>
      simp only [addToolMessage, getToolCallId, hlast, htc, optStrTruthy]
      exact ⟨appendMessage_length ct now st _, appendMessage_last ct now st _⟩
    | some tcs =>
      cases tcs with
      | nil =>
        simp only [addToolMessage, getToolCallId, hlast, htc, optStrTruthy]
        exact ⟨appendMessage_length ct now st _, appendMessage_last ct now st _⟩
      | cons tc rest =>
        have hg : getToolCallId st = some tc.id := by
          simp [getToolCallId, hlast, htc]
        simp only [hlast, htc]
        by_cases hid : tc.id = ""
        · have ho : optStrTruthy (getToolCallId st) = false := by
            simp [hg, optStrTruthy, hid]
          simp only [addToolMessage, ho, Bool.false_eq_true, if_false]
          rw [if_neg (show ¬(tc.id ≠ "") from by simpa using hid)]
          exact ⟨appendMessage_length ct now st _, appendMessage_last ct now st _⟩
        · have ho : optStrTruthy (getToolCallId st) = true := by
            simp [hg, optStrTruthy, hid]
          simp only [addToolMessage, ho, if_true]
          rw [if_pos (show tc.id ≠ "" from hid), hg]
          exact ⟨appendMessage_length ct now st _, appendMessage_last ct now st _⟩

/-- Witness for the amended C8 at a concrete state. -/
theorem tool_call_id_resolution_witness :
    cexState.messages ≠ [] ∧
    (addToolMessage ctZero "t" cexState (some (Json.str "obs"))).messages.length
      = cexState.messages.length + 1 :=
  ⟨by decide,
   (tool_call_id_resolution ctZero "t" cexState (Json.str "obs") (by decide)).1⟩

/-- **C9** — Idempotent, content-addressed archival: archiving the same step
content twice — in the same session or in different sessions — derives the
same `msg_id` (the content hash of the extracted message text, the id being
deterministic because it is a function of the content), both times replaces
the in-context step with
`{"step_name": "archive", "raw_text": "retrieve_msg by msg_id=<hash>"}`, and
stores exactly one message record for that id plus one session-mapping row
per distinct session. -/
theorem content_addressed_archival (store : Store) (s1 s2 : Option String)
    (cd : List (String × Json))
    (hmsg : extractLinkMessage cd ≠ "")
    (hrec : ∀ r ∈ store.records, r.1 ≠ md5sum (extractLinkMessage cd))
    (hmap : ∀ p ∈ store.mappings, p.2 ≠ md5sum (extractLinkMessage cd)) :
    (linkMsgId store s1 cd).2
      = archiveDict (some (md5sum (extractLinkMessage cd))) ∧
    (linkMsgId (linkMsgId store s1 cd).1 s2 cd).2
      = archiveDict (some (md5sum (extractLinkMessage cd))) ∧
    (((linkMsgId (linkMsgId store s1 cd).1 s2 cd).1).records.filter
        (fun r => r.1 = md5sum (extractLinkMessage cd))).length = 1 ∧
    (((linkMsgId (linkMsgId store s1 cd).1 s2 cd).1).mappings.filter
        (fun p => p.2 = md5sum (extractLinkMessage cd))).length
      = (if s1 = s2 then 1 else 2) := by
  have hmkid : ∀ s : Option String,
      mkChatHistoryMessageData (extractLinkMessage cd) none s =
        ⟨some (md5sum (extractLinkMessage cd)), s, extractLinkMessage cd,
          (extractLinkMessage cd).length⟩ := by
    intro s
    simp [mkChatHistoryMessageData, optStrTruthy, hmsg]
  have hany_rec : store.records.any
      (fun r => r.1 = md5sum (extractLinkMessage cd)) = false := by
    simp only [List.any_eq_false, decide_eq_true_eq]
    exact hrec
  have hany_map1 : store.mappings.any
      (fun p => p.1 = s1 ∧ p.2 = md5sum (extractLinkMessage cd)) = false := by
    simp only [List.any_eq_false, decide_eq_true_eq]
    intro p hp hc
    exact hmap p hp hc.2
  have hstore1 : (linkMsgId store s1 cd).1 =
      ⟨store.records ++ [(md5sum (extractLinkMessage cd), extractLinkMessage cd)],
       store.mappings ++ [(s1, md5sum (extractLinkMessage cd))]⟩ := by
    simp [linkMsgId, Store.addMessage, hmkid s1, hany_rec, hany_map1]
    exact fun hmem => hmap _ hmem rfl
  have hrep1 : (linkMsgId store s1 cd).2
      = archiveDict (some (md5sum (extractLinkMessage cd))) := by
    simp [linkMsgId, hmkid s1]
  have hrep2 : (linkMsgId (linkMsgId store s1 cd).1 s2 cd).2
      = archiveDict (some (md5sum (extractLinkMessage cd))) := by
    simp [linkMsgId, hmkid s2]
  have hrecords2 : ((linkMsgId (linkMsgId store s1 cd).1 s2 cd).1).records
      = store.records ++
          [(md5sum (extractLinkMessage cd), extractLinkMessage cd)] := by
    rw [hstore1]
    simp only [linkMsgId, hmkid s2, Store.addMessage]
    simp
  have hfilter_rec : store.records.filter
      (fun r => r.1 = md5sum (extractLinkMessage cd)) = [] := by
    rw [List.filter_eq_nil]
    intro r hr
    simpa using hrec r hr
  have hfilter_map : store.mappings.filter
      (fun p => p.2 = md5sum (extractLinkMessage cd)) = [] := by
    rw [List.filter_eq_nil]
    intro p hp
    simpa using hmap p hp
  have hmaps2 : ((linkMsgId (linkMsgId store s1 cd).1 s2 cd).1).mappings
      = store.mappings ++ [(s1, md5sum (extractLinkMessage cd))] ++
          (if s1 = s2 then [] else [(s2, md5sum (extractLinkMessage cd))]) := by
    rw [hstore1]
    simp only [linkMsgId, hmkid s2, Store.addMessage]
    by_cases hss : s1 = s2
    · simp [hss]
    · have h1 : store.mappings.any
          (fun p => p.1 = s2 ∧ p.2 = md5sum (extractLinkMessage cd)) = false := by
        simp only [List.any_eq_false, decide_eq_true_eq]
        intro p hp hc
        exact hmap p hp hc.2
      simp [h1, hss, fun h : s2 = s1 => hss h.symm]
      exact fun hmem => hmap _ hmem rfl
  refine ⟨hrep1, hrep2, ?_, ?_⟩
  · rw [hrecords2, List.filter_append, hfilter_rec]
    simp
  · rw [hmaps2, List.filter_append, List.filter_append, hfilter_map]
    by_cases hss : s1 = s2 <;> simp [hss]

/-- Witness for C9 at a concrete step dict and an empty store: the
replacement step carries the content hash. -/
theorem content_addressed_archival_witness :
    extractLinkMessage
        [("step_name", Json.str "action"), ("raw_text", Json.str "hello")] ≠ "" ∧
    (linkMsgId ⟨[], []⟩ (some "sessA")
        [("step_name", Json.str "action"), ("raw_text", Json.str "hello")]).2
      = archiveDict (some (md5sum (extractLinkMessage
          [("step_name", Json.str "action"), ("raw_text", Json.str "hello")]))) :=
  ⟨by decide,
   (content_addressed_archival ⟨[], []⟩ (some "sessA") (some "sessB") _
      (by decide) (by simp) (by simp)).1⟩

end TopsailAI
